import Mathlib

/-!
Verification of the peer-to-peer communication layer of KABOOMedia: a shallow
embedding of `src/core/p2p_network.py` (class `P2PNode`) and
`src/core/nat_traversal.py` (class `NATTraversal`), together with proofs about
the message codec, the per-connection receive loop, the connection registry
operations and the NAT helper.

Modelling conventions:
* Python strings are sequences of Unicode code points (which may include lone
  surrogates), so they are modelled as `List Nat` (`PyStr`).  The wire buffer
  built by `recv(...).decode()` is likewise a `List Nat`.
* JSON-serializable Python values are the inductive `PyVal`.  Machine floats
  are modelled exactly as decimal mantissa/exponent pairs `pyfloat m e`
  (value `m * 10 ^ e`); `json.dumps` of such a float is modelled as the JSON
  number `<m>e<e>`, which `json.loads` accepts.  No claim depends on the
  printed text of a float or on IEEE rounding.
* `time.time()` returns a float whose value is never read by any code under
  verification; the timestamp is modelled as an integer second count.
* `json.loads` is the executable parser `jsonLoads`, written from the
  documented grammar of the Python `json` module (strict mode, the default):
  objects, arrays, strings with backslash escapes and surrogate-pair
  recombination, numbers without leading zeros, the literals `null`, `true`,
  `false`, `NaN`, `Infinity` and `-Infinity`.  A parse failure models
  `json.JSONDecodeError`, the only exception `json.loads` raises here.
* Sockets are identified by numeric handles; a system state `Sys` tracks the
  set of open handles, and operations additionally return the list of socket
  operations they performed.
* Exceptions escaping a statement are modelled with `Option PyErr` / early
  returns, matching the `try/except` structure of the source.
-/

namespace Kaboom

/-- A Python string: a sequence of Unicode code points. -/
abbrev PyStr := List Nat

/-- Convert a Lean string literal to the model representation. -/
def pstr (s : String) : PyStr := s.data.map Char.toNat

mutual
/-- A JSON-serializable Python value, the domain of `json.dumps` and the
codomain of `json.loads`.  `pyfloat m e` is the decimal `m * 10 ^ e`;
`nan` and `infinity` mirror the non-finite floats the `json` module
serializes as `NaN`, `Infinity` and `-Infinity`. -/
inductive PyVal where
  | pynone
  | pybool (b : Bool)
  | pyint (n : Int)
  | pyfloat (m : Int) (e : Int)
  | nan
  | infinity (neg : Bool)
  | pystr (s : PyStr)
  | pylist (xs : PyItems)
  | pydict (kvs : PyFields)
deriving DecidableEq

/-- The elements of a Python list value. -/
inductive PyItems where
  | nil
  | cons (v : PyVal) (t : PyItems)
deriving DecidableEq

/-- The key/value pairs of a Python dict value, in insertion order. -/
inductive PyFields where
  | nil
  | cons (k : PyStr) (v : PyVal) (t : PyFields)
deriving DecidableEq
end

/-- Python `dict.get` / `dict[...]` on a dict assembled by `json.loads`:
with duplicate keys in the source text the last binding wins, so lookup
returns the last matching binding. -/
def PyFields.getLast : PyFields → PyStr → Option PyVal
  | .nil, _ => none
  | .cons k' v t, k =>
    match t.getLast k with
    | some w => some w
    | none => if k' = k then some v else none

/-- A code point Python's `chr` accepts and that is not a surrogate: the
strings that arise in any realistic run are made of these. -/
def validChar (c : Nat) : Bool := c < 1114112 && !(55296 ≤ c && c ≤ 57343)

/-- All code points of the string are valid (see `validChar`). -/
def validStr (s : PyStr) : Bool := s.all validChar

mutual
/-- All strings inside the value are valid Unicode (see `validChar`). -/
def validVal : PyVal → Bool
  | .pystr s => validStr s
  | .pylist xs => validItems xs
  | .pydict kvs => validFields kvs
  | _ => true

/-- List version of `validVal`. -/
def validItems : PyItems → Bool
  | .nil => true
  | .cons v t => validVal v && validItems t

/-- Dict version of `validVal`: keys and values are valid. -/
def validFields : PyFields → Bool
  | .nil => true
  | .cons k v t => validStr k && validVal v && validFields t
end

/-! ## The printer: `json.dumps` with its default options

Defaults of the Python `json` module: `ensure_ascii=True` (code points
outside `0x20 ..= 0x7e` become `\uXXXX` escapes, with surrogate pairs above
`0xFFFF`), separators `", "` and `": "`, `allow_nan=True`.
-/

/-- Lowercase hexadecimal digit character of `n < 16`. -/
def hexChar (n : Nat) : Nat := if n < 10 then 48 + n else 87 + n

/-- The four hexadecimal digit characters of `u < 0x10000`, most significant
first, as printed inside a `\uXXXX` escape. -/
def hex4 (u : Nat) : List Nat :=
  [hexChar (u / 4096 % 16), hexChar (u / 256 % 16), hexChar (u / 16 % 16), hexChar (u % 16)]

/-- The characters `json.dumps` emits for one string code point
(`ensure_ascii=True`). -/
def escapeChar (c : Nat) : List Nat :=
  if c = 34 then [92, 34]          -- \"
  else if c = 92 then [92, 92]     -- \\
  else if c = 10 then [92, 110]    -- \n
  else if c = 13 then [92, 114]    -- \r
  else if c = 9 then [92, 116]     -- \t
  else if c = 8 then [92, 98]      -- \b
  else if c = 12 then [92, 102]    -- \f
  else if c < 32 then 92 :: 117 :: hex4 c
  else if c < 127 then [c]
  else if c < 65536 then 92 :: 117 :: hex4 c
  else
    -- astral code point: UTF-16 surrogate pair, two \uXXXX escapes
    92 :: 117 :: hex4 (55296 + (c - 65536) / 1024) ++
      (92 :: 117 :: hex4 (56320 + (c - 65536) % 1024))

/-- String-body encoding: every code point escaped per `escapeChar`. -/
def escapeStr : PyStr → List Nat
  | [] => []
  | c :: t => escapeChar c ++ escapeStr t

/-- Decimal digit characters of a natural number, as Python prints it. -/
def natChars (n : Nat) : List Nat :=
  if n = 0 then [48] else (Nat.digits 10 n).reverse.map (· + 48)

/-- Decimal representation of an integer, as Python prints it. -/
def intChars (i : Int) : List Nat :=
  if i < 0 then 45 :: natChars i.natAbs else natChars i.natAbs

mutual
/-- The text `json.dumps` produces for a value (default options). -/
def dumpVal : PyVal → List Nat
  | .pynone => [110, 117, 108, 108]                 -- null
  | .pybool true => [116, 114, 117, 101]            -- true
  | .pybool false => [102, 97, 108, 115, 101]       -- false
  | .pyint n => intChars n
  | .pyfloat m e => intChars m ++ 101 :: intChars e -- <m>e<e>
  | .nan => [78, 97, 78]                            -- NaN
  | .infinity false => [73, 110, 102, 105, 110, 105, 116, 121]       -- Infinity
  | .infinity true => [45, 73, 110, 102, 105, 110, 105, 116, 121]    -- -Infinity
  | .pystr s => 34 :: (escapeStr s ++ [34])
  | .pylist xs => 91 :: dumpItems xs
  | .pydict kvs => 123 :: dumpFields kvs

/-- List elements joined with `", "`, closed with `]`. -/
def dumpItems : PyItems → List Nat
  | .nil => [93]
  | .cons v .nil => dumpVal v ++ [93]
  | .cons v (.cons w t) => dumpVal v ++ 44 :: 32 :: dumpItems (.cons w t)

/-- Dict entries `"key": value` joined with `", "`, closed with `}`. -/
def dumpFields : PyFields → List Nat
  | .nil => [125]
  | .cons k v .nil =>
    (34 :: (escapeStr k ++ [34])) ++ 58 :: 32 :: dumpVal v ++ [125]
  | .cons k v (.cons k' v' t) =>
    (34 :: (escapeStr k ++ [34])) ++ 58 :: 32 :: dumpVal v ++
      44 :: 32 :: dumpFields (.cons k' v' t)
end

/-! ## The parser: `json.loads` in strict (default) mode

A fueled executable parser over `List Nat`, following the grammar the
Python `json` module implements: the scanner dispatches on the first
character to string / object / array / `null` / `true` / `false`, falls
back to the number regular expression `-?(0|[1-9]\d*)(\.\d+)?([eE][-+]?\d+)?`
and finally to the constants `NaN`, `Infinity`, `-Infinity`.  Every failure
mode is Python's `json.JSONDecodeError`, modelled as `none`.  Fuel decreases
on every recursive call; `jsonLoads` passes fuel that is ample for every
input, so the fueled parser agrees with the unbounded one.
-/

/-- Decimal digit character test. -/
def isDigit (c : Nat) : Bool := 48 ≤ c && c ≤ 57

/-- JSON whitespace: space, tab, newline, carriage return. -/
def isWs (c : Nat) : Bool := c = 32 || c = 9 || c = 10 || c = 13

/-- Drop leading JSON whitespace. -/
def skipWs : List Nat → List Nat
  | [] => []
  | c :: t => if isWs c then skipWs t else c :: t

/-- Literal-prefix test, modelling Python's `s[idx:idx+n] == lit`. -/
def startsWith : List Nat → List Nat → Bool
  | _, [] => true
  | [], _ :: _ => false
  | c :: t, p :: ps => c = p && startsWith t ps

/-- Value of a hexadecimal digit character (both cases), as accepted inside
a `\uXXXX` escape. -/
def hexVal (c : Nat) : Option Nat :=
  if 48 ≤ c && c ≤ 57 then some (c - 48)
  else if 97 ≤ c && c ≤ 102 then some (c - 87)
  else if 65 ≤ c && c ≤ 70 then some (c - 55)
  else none

/-- Read exactly four hexadecimal digits, the body of a `\uXXXX` escape. -/
def parseHex4 : List Nat → Option (Nat × List Nat)
  | a :: b :: c :: d :: t =>
    match hexVal a, hexVal b, hexVal c, hexVal d with
    | some x, some y, some z, some w => some (4096 * x + 256 * y + 16 * z + w, t)
    | _, _, _, _ => none
  | _ => none

/-- The single-character backslash escapes of JSON strings. -/
def escTable (c : Nat) : Option Nat :=
  if c = 34 then some 34        -- \"
  else if c = 92 then some 92   -- \\
  else if c = 47 then some 47   -- \/
  else if c = 98 then some 8    -- \b
  else if c = 102 then some 12  -- \f
  else if c = 110 then some 10  -- \n
  else if c = 114 then some 13  -- \r
  else if c = 116 then some 9   -- \t
  else none

/-- Body of a JSON string after the opening quote (Python `scanstring`,
strict mode): raw control characters are an error, `\uXXXX` escapes are
decoded with surrogate-pair recombination, a high surrogate not followed by
a low-surrogate escape stays as a lone code point.  One unit of fuel is
spent per produced code point. -/
def parseStrBody : Nat → List Nat → Option (PyStr × List Nat)
  | 0, _ => none
  | _, [] => none
  | fu + 1, c :: t =>
    if c = 34 then some ([], t)
    else if c = 92 then
      match t with
      | [] => none
      | e :: t2 =>
        if e = 117 then
          match parseHex4 t2 with
          | none => none
          | some (u, t3) =>
            if 55296 ≤ u && u ≤ 56319 then
              -- high surrogate: look for an immediately following \uXXXX
              if startsWith t3 [92, 117] then
                match parseHex4 (t3.drop 2) with
                | none => none
                | some (u2, t4) =>
                  if 56320 ≤ u2 && u2 ≤ 57343 then
                    (parseStrBody fu t4).map
                      (fun p => ((65536 + (u - 55296) * 1024 + (u2 - 56320)) :: p.1, p.2))
                  else
                    (parseStrBody fu t3).map (fun p => (u :: p.1, p.2))
              else
                (parseStrBody fu t3).map (fun p => (u :: p.1, p.2))
            else
              (parseStrBody fu t3).map (fun p => (u :: p.1, p.2))
        else
          match escTable e with
          | none => none
          | some ch => (parseStrBody fu t2).map (fun p => (ch :: p.1, p.2))
    else if c < 32 then none   -- invalid control character (strict mode)
    else (parseStrBody fu t).map (fun p => (c :: p.1, p.2))

/-- Greedy run of decimal digits; returns their values and the rest. -/
def takeDigits : List Nat → List Nat × List Nat
  | [] => ([], [])
  | c :: t =>
    if isDigit c then
      let p := takeDigits t
      ((c - 48) :: p.1, p.2)
    else ([], c :: t)

/-- Decimal value of a digit run, most significant first. -/
def foldDigits (acc : Nat) (ds : List Nat) : Nat :=
  ds.foldl (fun a d => 10 * a + d) acc

/-- Optional fraction group `\.\d+` of the number regular expression;
`none` when the group does not match (the dot is then left unconsumed). -/
def fracPart (r : List Nat) : Option (List Nat × List Nat) :=
  if startsWith r [46] then
    match takeDigits (r.drop 1) with
    | ([], _) => none
    | (ds, r2) => some (ds, r2)
  else none

/-- Optional exponent group `[eE][-+]?\d+`; `none` when it does not match. -/
def expPart (r : List Nat) : Option (Int × List Nat) :=
  match r with
  | c :: t =>
    if c = 101 || c = 69 then
      let neg := startsWith t [45]
      let t1 := if neg || startsWith t [43] then t.drop 1 else t
      match takeDigits t1 with
      | ([], _) => none
      | (ds, r2) => some (if neg then -(foldDigits 0 ds : Int) else (foldDigits 0 ds : Int), r2)
    else none
  | [] => none

/-- Fraction/exponent continuation after the integer part of a number:
without either group the result is an int, otherwise a float with decimal
mantissa and exponent. -/
def finishNum (neg : Bool) (ip : Nat) (r : List Nat) : PyVal × List Nat :=
  let fr := fracPart r
  let r1 := match fr with | some p => p.2 | none => r
  let ex := expPart r1
  let r2 := match ex with | some p => p.2 | none => r1
  match fr, ex with
  | none, none => (.pyint (if neg then -(ip : Int) else (ip : Int)), r2)
  | _, _ =>
    let fds := match fr with | some p => p.1 | none => []
    let m0 : Nat := foldDigits ip fds
    let x : Int := match ex with | some p => p.1 | none => 0
    (.pyfloat (if neg then -(m0 : Int) else (m0 : Int)) (x - fds.length), r2)

/-- The number branch of the scanner: the regular expression
`-?(0|[1-9]\d*)(\.\d+)?([eE][-+]?\d+)?` (no leading zeros), converted by
Python to an int when neither optional group matched, else to a float. -/
def parseNum (l : List Nat) : Option (PyVal × List Nat) :=
  let neg := startsWith l [45]
  let l1 := if neg then l.drop 1 else l
  match l1 with
  | [] => none
  | c :: t =>
    if c = 48 then some (finishNum neg 0 t)
    else if isDigit c then
      let p := takeDigits t
      some (finishNum neg (foldDigits (c - 48) p.1) p.2)
    else none

mutual
/-- One JSON value (Python `scan_once`).  Fuel decreases on every nested
call. -/
def parseValue : Nat → List Nat → Option (PyVal × List Nat)
  | 0, _ => none
  | fu + 1, l =>
    match l with
    | [] => none
    | c :: t =>
      if c = 34 then
        (parseStrBody (t.length + 1) t).map (fun p => (.pystr p.1, p.2))
      else if c = 123 then
        let l1 := skipWs t
        if startsWith l1 [125] then some (.pydict .nil, l1.drop 1)
        else (parseMembers fu l1).map (fun p => (.pydict p.1, p.2))
      else if c = 91 then
        let l1 := skipWs t
        if startsWith l1 [93] then some (.pylist .nil, l1.drop 1)
        else (parseItems fu l1).map (fun p => (.pylist p.1, p.2))
      else if startsWith l [110, 117, 108, 108] then some (.pynone, l.drop 4)
      else if startsWith l [116, 114, 117, 101] then some (.pybool true, l.drop 4)
      else if startsWith l [102, 97, 108, 115, 101] then some (.pybool false, l.drop 5)
      else
        match parseNum l with
        | some p => some p
        | none =>
          if startsWith l [78, 97, 78] then some (.nan, l.drop 3)
          else if startsWith l [73, 110, 102, 105, 110, 105, 116, 121] then
            some (.infinity false, l.drop 8)
          else if startsWith l [45, 73, 110, 102, 105, 110, 105, 116, 121] then
            some (.infinity true, l.drop 9)
          else none

/-- Nonempty member list of an object, positioned at a `"key"`. -/
def parseMembers : Nat → List Nat → Option (PyFields × List Nat)
  | 0, _ => none
  | fu + 1, l =>
    match l with
    | 34 :: t =>
      match parseStrBody (t.length + 1) t with
      | none => none
      | some (k, r1) =>
        match skipWs r1 with
        | 58 :: r2 =>
          match parseValue fu (skipWs r2) with
          | none => none
          | some (v, r3) =>
            match skipWs r3 with
            | 125 :: r4 => some (.cons k v .nil, r4)
            | 44 :: r4 => (parseMembers fu (skipWs r4)).map (fun p => (.cons k v p.1, p.2))
            | _ => none
        | _ => none
    | _ => none

/-- Nonempty element list of an array, positioned at the first value. -/
def parseItems : Nat → List Nat → Option (PyItems × List Nat)
  | 0, _ => none
  | fu + 1, l =>
    match parseValue fu l with
    | none => none
    | some (v, r1) =>
      match skipWs r1 with
      | 93 :: r2 => some (.cons v .nil, r2)
      | 44 :: r2 => (parseItems fu (skipWs r2)).map (fun p => (.cons v p.1, p.2))
      | _ => none
end

/-- The model of `json.loads`: skip leading whitespace, parse one value,
require only whitespace after it.  `none` models `json.JSONDecodeError`. -/
def jsonLoads (l : List Nat) : Option PyVal :=
  let l1 := skipWs l
  match parseValue (2 * l1.length + 2) l1 with
  | none => none
  | some (v, r) => if skipWs r = [] then some v else none

/-! ## The receive loop: `P2PNode._handle_peer_messages`

The loop body accumulates decoded chunks into a string buffer, splits off one
line at a time at the first newline, and processes each nonempty line inside
a `try` whose only handler catches `json.JSONDecodeError`.  Any other
exception — `AttributeError` from `.get` on a non-dict, `TypeError` from an
unhashable `in`-test key, `KeyError` from a missing `'data'`, or an exception
a handler raises — escapes to the outer `try`, which breaks the `while` loop;
the cleanup then closes the socket and deletes the registry entry.  The
`self.is_running` flag stays true for the duration of the modelled run.
-/

/-- The exception kinds distinguished by the receive loop.  Only
`jsonDecodeErr` (Python `json.JSONDecodeError`) is caught by the inner
`except`; everything else escapes and ends the loop. -/
inductive PyErr where
  | jsonDecodeErr
  | attributeErr
  | keyErr
  | typeErr
  | otherErr (n : Nat)
deriving DecidableEq

/-- A registered message handler: called with `(peer_id, message['data'])`;
`none` means it returned normally, `some e` that it raised `e`. -/
abbrev Handler := PyStr → PyVal → Option PyErr

/-- One handler invocation, as observed by the registered callback. -/
structure Dispatch where
  dtype : PyStr
  peer : PyStr
  ddata : PyVal
deriving DecidableEq

/-- Lookup in the handler table `self.message_handlers` (a dict keyed by the
message type string). -/
def lookupHandler (tbl : List (PyStr × Handler)) (t : PyStr) : Option Handler :=
  (tbl.find? (fun p => p.1 == t)).map (·.2)

/-- Process one nonempty line (the body of the inner `try`): decode it,
look up `message.get('type')` in the handler table, and invoke the handler
with `(peer_id, message['data'])`.  Returns the handler invocations that
happened and the exception, if any, that escaped the inner `try`. -/
def processLine (tbl : List (PyStr × Handler)) (peer_id : PyStr) (line : List Nat) :
    List Dispatch × Option PyErr :=
  match jsonLoads line with
  | none => ([], none)                      -- JSONDecodeError: logged and skipped
  | some (.pydict kvs) =>
    match kvs.getLast (pstr "type") with
    | some (.pystr t) =>
      match lookupHandler tbl t with
      | none => ([], none)                  -- no handler: silently dropped
      | some h =>
        match kvs.getLast (pstr "data") with
        | none => ([], some .keyErr)        -- message['data'] raises KeyError
        | some d =>
          match h peer_id d with
          | none => ([⟨t, peer_id, d⟩], none)
          | some .jsonDecodeErr => ([⟨t, peer_id, d⟩], none)  -- caught by the inner except
          | some e => ([⟨t, peer_id, d⟩], some e)
    | some (.pylist _) => ([], some .typeErr)   -- unhashable key in the `in` test
    | some (.pydict _) => ([], some .typeErr)
    | some _ => ([], none)                  -- hashable non-string type: not in the table
    | none => ([], none)                    -- .get gave None: not in the table
  | some _ => ([], some .attributeErr)      -- .get on a non-dict raises AttributeError

/-- Split the buffer at the first newline, modelling
`'\n' in buffer` / `buffer.split('\n', 1)`. -/
def splitNL : List Nat → Option (List Nat × List Nat)
  | [] => none
  | c :: t =>
    if c = 10 then some ([], t)
    else (splitNL t).map (fun p => (c :: p.1, p.2))

theorem splitNL_shape : ∀ l line rest, splitNL l = some (line, rest) →
    l = line ++ 10 :: rest ∧ 10 ∉ line := by
  intro l
  induction l with
  | nil => intro line rest h; simp [splitNL] at h
  | cons c t ih =>
    intro line rest h
    by_cases hc : c = 10
    · subst hc
      simp [splitNL] at h
      obtain ⟨h1, h2⟩ := h
      subst h1; subst h2
      simp
    · simp only [splitNL, if_neg hc, Option.map_eq_some'] at h
      obtain ⟨⟨l', r'⟩, hsp, hpair⟩ := h
      have hp1 : c :: l' = line := congrArg Prod.fst hpair
      have hp2 : r' = rest := congrArg Prod.snd hpair
      obtain ⟨he, hnot⟩ := ih l' r' hsp
      subst hp2
      constructor
      · rw [← hp1, he]; simp
      · rw [← hp1]
        intro hmem
        rcases List.mem_cons.mp hmem with h10 | h10
        · exact hc h10.symm
        · exact hnot h10

theorem splitNL_length {l line rest} (h : splitNL l = some (line, rest)) :
    rest.length < l.length := by
  obtain ⟨he, -⟩ := splitNL_shape l line rest h
  subst he; simp; omega

/-- The inner `while '\n' in buffer` loop: take lines off the buffer and
process the nonempty ones until no full line remains or an exception
escapes.  Returns the handler invocations, the remaining buffer (at the
point the loop stopped) and the escaping exception, if any. -/
def processBuffer (tbl : List (PyStr × Handler)) (peer_id : PyStr) (buf : List Nat) :
    List Dispatch × List Nat × Option PyErr :=
  match h : splitNL buf with
  | none => ([], buf, none)
  | some (line, rest) =>
    if line = [] then processBuffer tbl peer_id rest
    else
      match processLine tbl peer_id line with
      | (ds, none) =>
        let p := processBuffer tbl peer_id rest
        (ds ++ p.1, p.2.1, p.2.2)
      | (ds, some e) => (ds, rest, some e)
termination_by buf.length
decreasing_by all_goals exact splitNL_length h

/-- The outer `while self.is_running` loop, fed the successive results of
`recv(...).decode()`; the chunk list ending models the zero-length read (or
a read error) that breaks the loop.  An exception escaping the inner loop
also breaks it, abandoning the remaining chunks. -/
def recvLoop (tbl : List (PyStr × Handler)) (peer_id : PyStr) :
    List (List Nat) → List Nat → List Dispatch
  | [], _ => []
  | chunk :: chunks, buf =>
    let p := processBuffer tbl peer_id (buf ++ chunk)
    match p.2.2 with
    | some _ => p.1
    | none => p.1 ++ recvLoop tbl peer_id chunks p.2.1

/-! ## Node state and its operations (`P2PNode`) -/

/-- The mutable attributes of a `P2PNode` (minus the NAT helper, modelled
separately).  Sockets are numeric handles. -/
structure NodeState where
  port : Nat
  socket : Option Nat
  peer_connections : List (PyStr × Nat)
  message_handlers : List (PyStr × Handler)
  is_running : Bool

/-- A socket operation performed against the operating system. -/
inductive SockOp where
  | connect (addr : PyStr) (port : Nat) (sock : Nat)
  | send (sock : Nat) (bytes : List Nat)
  | close (sock : Nat)
deriving DecidableEq

/-- A node together with the open socket handles of the process. -/
structure Sys where
  node : NodeState
  opens : List Nat
  nextSock : Nat

/-- Registry lookup, modelling `self.peer_connections[peer_id]` /
`peer_id in self.peer_connections`. -/
def regLookup (r : List (PyStr × Nat)) (peer_id : PyStr) : Option Nat :=
  (r.find? (fun p => p.1 == peer_id)).map (·.2)

/-- Registry assignment `self.peer_connections[peer_id] = sock`: replaces in
place when the key exists (dicts keep insertion position), appends
otherwise. -/
def regSet (r : List (PyStr × Nat)) (peer_id : PyStr) (sock : Nat) : List (PyStr × Nat) :=
  if (r.find? (fun p => p.1 == peer_id)).isSome then
    r.map (fun p => if p.1 == peer_id then (peer_id, sock) else p)
  else r ++ [(peer_id, sock)]

/-- Registry deletion `del self.peer_connections[peer_id]` (guarded by an
`in` test in the source, so absence is a no-op here). -/
def regErase (r : List (PyStr × Nat)) (peer_id : PyStr) : List (PyStr × Nat) :=
  r.filter (fun p => !(p.1 == peer_id))

/-- Close a socket handle.  Python's `socket.close()` on an already closed
socket is a no-op, which removal from the open set models. -/
def closeSock (sys : Sys) (sock : Nat) : Sys :=
  { sys with opens := sys.opens.filter (fun s => !(s == sock)) }

/-- The `P2PNode.stop_node` method: clear `is_running`, close the listening
socket if one was ever created, close every registered connection, clear the
registry. -/
def stopNode (sys : Sys) : Sys :=
  let sys1 : Sys := { sys with node := { sys.node with is_running := false } }
  let sys2 : Sys :=
    match sys1.node.socket with
    | none => sys1
    | some sid => closeSock sys1 sid
  let sys3 : Sys := sys2.node.peer_connections.foldl (fun s p => closeSock s p.2) sys2
  { sys3 with node := { sys3.node with peer_connections := [] } }

/-- The wire message `send_message` builds:
`{'type': message_type, 'timestamp': time.time(), 'data': data}`. -/
def wireMessage (message_type : PyStr) (ts : Int) (data : PyVal) : PyVal :=
  .pydict (.cons (pstr "type") (.pystr message_type)
    (.cons (pstr "timestamp") (.pyint ts)
      (.cons (pstr "data") data .nil)))

/-- One frame as written to the socket: `json.dumps(message) + '\n'`. -/
def encodeFrame (message_type : PyStr) (ts : Int) (data : PyVal) : List Nat :=
  dumpVal (wireMessage message_type ts data) ++ [10]

/-- The `P2PNode.send_message` method.  `ts` is the current time;
`writeOk = false` means the socket write raised (broken pipe, reset), which
the source catches, logs and converts to `False`.  Returns the result, the
system state after the call and the socket operations performed. -/
def sendMessage (sys : Sys) (peer_id : PyStr) (message_type : PyStr) (data : PyVal)
    (ts : Int) (writeOk : Bool) : Bool × Sys × List SockOp :=
  match regLookup sys.node.peer_connections peer_id with
  | none => (false, sys, [])
  | some sock =>
    let bytes := encodeFrame message_type ts data
    (writeOk, sys, [.send sock bytes])

/-- The `P2PNode.connect_to_peer` method.  A fresh socket handle is created
first; `connectOk = false` means `connect` raised, which the source catches
and converts to `False` (the created socket object is not closed). -/
def connectToPeer (sys : Sys) (peer_address : PyStr) (peer_port : Nat) (peer_id : PyStr)
    (connectOk : Bool) : Bool × Sys × List SockOp :=
  let sock := sys.nextSock
  let sys1 : Sys := { sys with opens := sock :: sys.opens, nextSock := sys.nextSock + 1 }
  if connectOk then
    (true,
      { sys1 with node :=
        { sys1.node with peer_connections := regSet sys1.node.peer_connections peer_id sock } },
      [.connect peer_address peer_port sock])
  else (false, sys1, [.connect peer_address peer_port sock])

/-- The whole of `P2PNode._handle_peer_messages` for one connection: run the
receive loop over the arriving chunks, then the cleanup — close the socket
and delete the peer's registry entry. -/
def handlePeerMessages (sys : Sys) (sock : Nat) (peer_id : PyStr)
    (chunks : List (List Nat)) : Sys × List Dispatch :=
  let ds := recvLoop sys.node.message_handlers peer_id chunks []
  let sys1 := closeSock sys sock
  ({ sys1 with node :=
      { sys1.node with peer_connections := regErase sys1.node.peer_connections peer_id } },
    ds)

/-! ## The NAT helper (`NATTraversal.setup_port_forwarding`) -/

/-- The `upnp_enabled` attribute of the `NATTraversal` helper. -/
structure NatHelper where
  upnp_enabled : Bool
deriving DecidableEq

/-- The environment `setup_port_forwarding` runs against: whether the
`upnpclient` import succeeds, the outcome of `upnpclient.discover()`, the
outcome of `_get_local_ip()` and of `AddPortMapping` on a given device for a
given external/internal port and internal client address.  Every `Except`
error models a raised exception. -/
structure UpnpEnv where
  importOk : Bool
  discover : Except Unit (List Nat)
  localIp : Except Unit PyStr
  addPortMapping : Nat → Nat → PyStr → Option Unit

/-- The `NATTraversal.setup_port_forwarding` method: everything sits in one
`try` whose `except` logs and falls through to `return False`; only a
successful mapping against the first discovered device sets `upnp_enabled`
and returns `True`.  An empty device list raises nothing and also falls
through to `return False`. -/
def setupPortForwarding (env : UpnpEnv) (st : NatHelper) (port : Nat) : Bool × NatHelper :=
  if !env.importOk then (false, st)
  else
    match env.discover with
    | .error _ => (false, st)
    | .ok [] => (false, st)
    | .ok (d :: _) =>
      match env.localIp with
      | .error _ => (false, st)
      | .ok ip =>
        match env.addPortMapping d port ip with
        | some _ => (false, st)
        | none => (true, { st with upnp_enabled := true })

/-! ## Round-trip: auxiliary lemmas about digits and numbers -/

/-- A continuation that cannot extend a just-printed JSON number: empty, or
starting with none of digit, `.`, `e`, `E`.  Everything that follows a value
inside printed JSON (`,`, `}`, `]`, end of text) qualifies. -/
def numSafe (l : List Nat) : Bool :=
  match l with
  | [] => true
  | c :: _ => !(isDigit c || c = 46 || c = 101 || c = 69)

theorem startsWith_append (p r : List Nat) : startsWith (p ++ r) p = true := by
  induction p with
  | nil => cases r <;> rfl
  | cons c t ih => simp [startsWith, ih]

theorem foldDigits_cons (a d : Nat) (ds : List Nat) :
    foldDigits a (d :: ds) = foldDigits (10 * a + d) ds := rfl

theorem foldDigits_reverse (ds : List Nat) (a : Nat) :
    foldDigits a ds.reverse = a * 10 ^ ds.length + Nat.ofDigits 10 ds := by
  induction ds generalizing a with
  | nil => simp [foldDigits, Nat.ofDigits]
  | cons d ds ih =>
    rw [List.reverse_cons]
    have h1 : foldDigits a (ds.reverse ++ [d]) = 10 * foldDigits a ds.reverse + d := by
      simp [foldDigits, List.foldl_append]
    rw [h1, ih, Nat.ofDigits_cons, List.length_cons]
    ring

theorem takeDigits_map (ds : List Nat) (rest : List Nat)
    (hds : ∀ d ∈ ds, d < 10)
    (hrest : rest = [] ∨ ∃ c t, rest = c :: t ∧ isDigit c = false) :
    takeDigits (ds.map (· + 48) ++ rest) = (ds, rest) := by
  induction ds with
  | nil =>
    rcases hrest with h | ⟨c, t, he, hc⟩
    · subst h; rfl
    · subst he; simp [takeDigits, hc]
  | cons d ds ih =>
    have hd : d < 10 := hds d (by simp)
    have hdig : isDigit (d + 48) = true := by simp [isDigit]; omega
    have : takeDigits ((d + 48) :: (ds.map (· + 48) ++ rest)) =
        ((d + 48 - 48) :: (takeDigits (ds.map (· + 48) ++ rest)).1,
          (takeDigits (ds.map (· + 48) ++ rest)).2) := by
      simp [takeDigits, hdig]
    simp only [List.map_cons, List.cons_append, this,
      ih (fun x hx => hds x (by simp [hx]))]
    simp

/-- Structure of `natChars n` for positive `n`: the reversed digit list,
shifted into characters. -/
theorem natChars_pos (n : Nat) (hn : n ≠ 0) :
    natChars n = (Nat.digits 10 n).reverse.map (· + 48) := by
  simp [natChars, hn]

theorem digits_lt_ten {n d : Nat} (hd : d ∈ Nat.digits 10 n) : d < 10 :=
  Nat.digits_lt_base (by norm_num) hd

/-- Reading back the printed digits of a positive natural number. -/
theorem takeDigits_natChars (n : Nat) (hn : n ≠ 0) (rest : List Nat)
    (hrest : rest = [] ∨ ∃ c t, rest = c :: t ∧ isDigit c = false) :
    takeDigits (natChars n ++ rest) = ((Nat.digits 10 n).reverse, rest) := by
  rw [natChars_pos n hn]
  exact takeDigits_map _ rest (fun d hd => digits_lt_ten (List.mem_reverse.mp hd)) hrest

/-- The digit-run value of the printed digits recovers the number. -/
theorem foldDigits_digits (n : Nat) :
    foldDigits 0 (Nat.digits 10 n).reverse = n := by
  rw [foldDigits_reverse, Nat.ofDigits_digits]
  simp

/-- Shape of the printed digits of a positive number: a nonzero leading
digit character followed by digit characters. -/
theorem natChars_spec (n : Nat) (hn : n ≠ 0) :
    ∃ d ds, natChars n = (d + 48) :: ds.map (· + 48) ∧ d ≠ 0 ∧ d < 10 ∧
      (∀ x ∈ ds, x < 10) ∧ (Nat.digits 10 n).reverse = d :: ds := by
  have hne : Nat.digits 10 n ≠ [] := Nat.digits_ne_nil_iff_ne_zero.mpr hn
  have hrne : (Nat.digits 10 n).reverse ≠ [] := by
    simpa using hne
  obtain ⟨d, ds, hds⟩ := List.exists_cons_of_ne_nil hrne
  have hL : Nat.digits 10 n = ds.reverse ++ [d] := by
    have := congrArg List.reverse hds
    simpa using this
  have hdmem : d ∈ Nat.digits 10 n := by rw [hL]; simp
  have hdsmem : ∀ x ∈ ds, x < 10 := by
    intro x hx
    exact digits_lt_ten (by rw [hL]; simp [hx])
  have hdne : d ≠ 0 := by
    have hgl := Nat.getLast_digit_ne_zero 10 hn
    have hd : (Nat.digits 10 n).getLast hne = d := by
      simp only [hL]
      simp
    rwa [hd] at hgl
  exact ⟨d, ds, by rw [natChars_pos n hn, hds]; simp, hdne, digits_lt_ten hdmem, hdsmem, hds⟩

theorem takeDigits_natChars_run (n : Nat) (rest : List Nat)
    (hrest : rest = [] ∨ ∃ c t, rest = c :: t ∧ isDigit c = false) :
    ∃ ds, takeDigits (natChars n ++ rest) = (ds, rest) ∧ ds ≠ [] ∧ foldDigits 0 ds = n := by
  by_cases hn : n = 0
  · subst hn
    refine ⟨[0], ?_, by simp, rfl⟩
    have h0 : isDigit 48 = true := by decide
    show takeDigits (48 :: rest) = ([0], rest)
    rcases hrest with h | ⟨c, t, he, hc⟩
    · subst h; simp [takeDigits, h0]
    · subst he; simp [takeDigits, h0, hc]
  · refine ⟨(Nat.digits 10 n).reverse, takeDigits_natChars n hn rest hrest, ?_,
      foldDigits_digits n⟩
    simpa using Nat.digits_ne_nil_iff_ne_zero.mpr hn

theorem numSafe_notDigit {rest : List Nat} (h : numSafe rest = true) :
    rest = [] ∨ ∃ c t, rest = c :: t ∧ isDigit c = false := by
  cases rest with
  | nil => exact Or.inl rfl
  | cons c t =>
    refine Or.inr ⟨c, t, rfl, ?_⟩
    simp [numSafe, isDigit] at h
    simp [isDigit]
    omega

theorem parseNum_intChars (n : Int) (rest : List Nat) (hrest : numSafe rest = true) :
    parseNum (intChars n ++ rest) = some (.pyint n, rest) := by
  have hnd := numSafe_notDigit hrest
  have hfrac : fracPart rest = none := by
    cases rest with
    | nil => rfl
    | cons c t =>
      simp [numSafe, isDigit] at hrest
      simp [fracPart, startsWith]
      omega
  have hexp : expPart rest = none := by
    cases rest with
    | nil => rfl
    | cons c t =>
      simp [numSafe, isDigit] at hrest
      simp [expPart]
      omega
  have hfin : ∀ neg ip, finishNum neg ip rest =
      (.pyint (if neg then -(ip : Int) else (ip : Int)), rest) := by
    intro neg ip
    simp [finishNum, hfrac, hexp]
  by_cases hneg : n < 0
  · have hposabs : n.natAbs ≠ 0 := by
      intro h0
      have := Int.natAbs_eq_zero.mp h0
      omega
    obtain ⟨d, ds, hnc, hdne, hdlt, hdslt, hrev⟩ := natChars_spec n.natAbs hposabs
    have hic : intChars n = 45 :: natChars n.natAbs := by simp [intChars, hneg]
    rw [hic, hnc]
    have hdig : isDigit (d + 48) = true := by simp [isDigit]; omega
    have hne48 : ¬((d + 48 : Nat) = 48) := by omega
    have hstep : parseNum ((45 :: (d + 48) :: ds.map (· + 48)) ++ rest) =
        some (finishNum true (foldDigits (d + 48 - 48) (takeDigits (ds.map (· + 48) ++ rest)).1)
          (takeDigits (ds.map (· + 48) ++ rest)).2) := by
      simp [parseNum, startsWith, hdig, hne48]
    rw [hstep, takeDigits_map ds rest hdslt hnd]
    have hval : foldDigits (d + 48 - 48) ds = n.natAbs := by
      have hd48 : d + 48 - 48 = d := by omega
      rw [hd48]
      have h1 : foldDigits 0 (d :: ds) = foldDigits d ds := by
        rw [foldDigits_cons]; norm_num
      rw [← h1, ← hrev, foldDigits_digits]
    simp only [hval, hfin]
    simp [abs_of_neg hneg]
  · push_neg at hneg
    have hic : intChars n = natChars n.natAbs := by
      simp [intChars]
      omega
    by_cases h0 : n.natAbs = 0
    · have hn0 : n = 0 := by omega
      subst hn0
      have he : intChars 0 ++ rest = 48 :: rest := by rw [hic]; rfl
      rw [he]
      have hstep : parseNum (48 :: rest) =
          some (finishNum (startsWith (48 :: rest) [45]) 0 rest) := by
        simp [parseNum, startsWith]
      rw [hstep]
      have hsw : startsWith (48 :: rest) [45] = false := by simp [startsWith]
      rw [hsw, hfin]
      norm_num
    · obtain ⟨d, ds, hnc, hdne, hdlt, hdslt, hrev⟩ := natChars_spec n.natAbs h0
      rw [hic, hnc]
      have hdig : isDigit (d + 48) = true := by simp [isDigit]; omega
      have hne48 : ¬((d + 48 : Nat) = 48) := by omega
      have hne45 : ¬((d + 48 : Nat) = 45) := by omega
      have hstep : parseNum (((d + 48) :: ds.map (· + 48)) ++ rest) =
          some (finishNum false (foldDigits (d + 48 - 48) (takeDigits (ds.map (· + 48) ++ rest)).1)
            (takeDigits (ds.map (· + 48) ++ rest)).2) := by
        simp [parseNum, startsWith, hdig, hne48, hne45]
      rw [hstep, takeDigits_map ds rest hdslt hnd]
      have hval : foldDigits (d + 48 - 48) ds = n.natAbs := by
        have hd48 : d + 48 - 48 = d := by omega
        rw [hd48]
        have h1 : foldDigits 0 (d :: ds) = foldDigits d ds := by
          rw [foldDigits_cons]; norm_num
        rw [← h1, ← hrev, foldDigits_digits]
      simp only [hval, hfin]
      simp [abs_of_nonneg hneg]

/-- The exponent group on a printed integer exponent. -/
theorem expPart_intChars (e : Int) (rest : List Nat)
    (hr : rest = [] ∨ ∃ c t, rest = c :: t ∧ isDigit c = false) :
    expPart (101 :: (intChars e ++ rest)) = some (e, rest) := by
  by_cases hneg : e < 0
  · have hie : intChars e = 45 :: natChars e.natAbs := by simp [intChars, hneg]
    obtain ⟨ds, hds, hdne, hdval⟩ := takeDigits_natChars_run e.natAbs rest hr
    rw [hie]
    have hsw45 : startsWith ((45 :: natChars e.natAbs) ++ rest) [45] = true := by
      simp [startsWith]
    simp only [expPart, List.cons_append]
    rw [if_pos (by norm_num)]
    simp only [← List.cons_append, hsw45, Bool.true_or, if_true]
    have hdrop : ((45 :: natChars e.natAbs) ++ rest).drop 1 = natChars e.natAbs ++ rest := by
      simp
    rw [List.cons_append, List.drop_succ_cons, List.drop_zero, hds]
    cases hdsc : ds with
    | nil => exact absurd hdsc hdne
    | cons a as =>
      rw [hdsc] at hdval
      simp only [hdval]
      congr 2
      omega
  · push_neg at hneg
    have hie : intChars e = natChars e.natAbs := by simp [intChars]; omega
    obtain ⟨ds, hds, hdne, hdval⟩ := takeDigits_natChars_run e.natAbs rest hr
    have hnc0 : ∃ c0 t0, natChars e.natAbs = c0 :: t0 ∧ 48 ≤ c0 ∧ c0 ≤ 57 := by
      by_cases h0 : e.natAbs = 0
      · exact ⟨48, [], by rw [h0]; rfl, by norm_num, by norm_num⟩
      · obtain ⟨d, ds', hnc, -, hdlt, -, -⟩ := natChars_spec e.natAbs h0
        exact ⟨d + 48, ds'.map (· + 48), hnc, by omega, by omega⟩
    obtain ⟨c0, t0, hnc, hc0ge, hc0le⟩ := hnc0
    rw [hie]
    have hsw45 : startsWith (natChars e.natAbs ++ rest) [45] = false := by
      rw [hnc]
      simp [startsWith]
      omega
    have hsw43 : startsWith (natChars e.natAbs ++ rest) [43] = false := by
      rw [hnc]
      simp [startsWith]
      omega
    simp only [expPart]
    rw [if_pos (by norm_num)]
    simp only [hsw45, hsw43, Bool.or_self, Bool.false_eq_true, if_false, hds]
    cases hdsc : ds with
    | nil => exact absurd hdsc hdne
    | cons a as =>
      rw [hdsc] at hdval
      simp only [hdval]
      congr 2
      omega

/-- The number branch on a printed integer part followed by any
continuation that does not start with a digit: the sign and the digit run
are consumed and handed to `finishNum`. -/
theorem parseNum_intPart (n : Int) (r : List Nat)
    (hr : r = [] ∨ ∃ c t, r = c :: t ∧ isDigit c = false) :
    parseNum (intChars n ++ r) = some (finishNum (decide (n < 0)) n.natAbs r) := by
  by_cases hneg : n < 0
  · have hposabs : n.natAbs ≠ 0 := by
      intro h0
      have := Int.natAbs_eq_zero.mp h0
      omega
    obtain ⟨d, ds, hnc, hdne, hdlt, hdslt, hrev⟩ := natChars_spec n.natAbs hposabs
    have hic : intChars n = 45 :: natChars n.natAbs := by simp [intChars, hneg]
    rw [hic, hnc]
    have hdig : isDigit (d + 48) = true := by simp [isDigit]; omega
    have hne48 : ¬((d + 48 : Nat) = 48) := by omega
    have hstep : parseNum ((45 :: (d + 48) :: ds.map (· + 48)) ++ r) =
        some (finishNum true (foldDigits (d + 48 - 48) (takeDigits (ds.map (· + 48) ++ r)).1)
          (takeDigits (ds.map (· + 48) ++ r)).2) := by
      simp [parseNum, startsWith, hdig, hne48]
    rw [hstep, takeDigits_map ds r hdslt hr]
    have hval : foldDigits (d + 48 - 48) ds = n.natAbs := by
      have hd48 : d + 48 - 48 = d := by omega
      rw [hd48]
      have h1 : foldDigits 0 (d :: ds) = foldDigits d ds := by
        rw [foldDigits_cons]; norm_num
      rw [← h1, ← hrev, foldDigits_digits]
    rw [hval]
    simp [hneg]
  · push_neg at hneg
    have hic : intChars n = natChars n.natAbs := by
      simp [intChars]
      omega
    by_cases h0 : n.natAbs = 0
    · have hn0 : n = 0 := by omega
      subst hn0
      have he : intChars 0 ++ r = 48 :: r := by rw [hic]; rfl
      rw [he]
      have hstep : parseNum (48 :: r) =
          some (finishNum (startsWith (48 :: r) [45]) 0 r) := by
        simp [parseNum, startsWith]
      rw [hstep]
      have hsw : startsWith (48 :: r) [45] = false := by simp [startsWith]
      rw [hsw]
      norm_num
    · obtain ⟨d, ds, hnc, hdne, hdlt, hdslt, hrev⟩ := natChars_spec n.natAbs h0
      rw [hic, hnc]
      have hdig : isDigit (d + 48) = true := by simp [isDigit]; omega
      have hne48 : ¬((d + 48 : Nat) = 48) := by omega
      have hne45 : ¬((d + 48 : Nat) = 45) := by omega
      have hstep : parseNum (((d + 48) :: ds.map (· + 48)) ++ r) =
          some (finishNum false (foldDigits (d + 48 - 48) (takeDigits (ds.map (· + 48) ++ r)).1)
            (takeDigits (ds.map (· + 48) ++ r)).2) := by
        simp [parseNum, startsWith, hdig, hne48, hne45]
      rw [hstep, takeDigits_map ds r hdslt hr]
      have hval : foldDigits (d + 48 - 48) ds = n.natAbs := by
        have hd48 : d + 48 - 48 = d := by omega
        rw [hd48]
        have h1 : foldDigits 0 (d :: ds) = foldDigits d ds := by
          rw [foldDigits_cons]; norm_num
        rw [← h1, ← hrev, foldDigits_digits]
      rw [hval]
      have : decide (n < 0) = false := by simp; omega
      rw [this]

/-- The number branch on a printed float `<m>e<e>`: the fraction group does
not match, the exponent group does, and the conversion yields mantissa `m`
and decimal exponent `e`. -/
theorem parseNum_floatChars (m e : Int) (rest : List Nat) (hrest : numSafe rest = true) :
    parseNum (intChars m ++ 101 :: (intChars e ++ rest)) = some (.pyfloat m e, rest) := by
  have hr : (101 : Nat) :: (intChars e ++ rest) = [] ∨
      ∃ c t, (101 : Nat) :: (intChars e ++ rest) = c :: t ∧ isDigit c = false :=
    Or.inr ⟨101, _, rfl, by decide⟩
  rw [parseNum_intPart m _ hr]
  have hfrac : fracPart (101 :: (intChars e ++ rest)) = none := by
    simp [fracPart, startsWith]
  have hexp := expPart_intChars e rest (numSafe_notDigit hrest)
  simp only [finishNum, hfrac, hexp]
  simp only [foldDigits, List.foldl_nil, List.length_nil]
  by_cases hneg : m < 0
  · simp [hneg, abs_of_neg hneg]
  · push_neg at hneg
    have : decide (m < 0) = false := by simp; omega
    simp [this, abs_of_nonneg hneg]

/-! ## Round-trip: strings -/

theorem hexVal_hexChar (x : Nat) (hx : x < 16) : hexVal (hexChar x) = some x := by
  interval_cases x <;> decide

theorem parseHex4_hex4 (u : Nat) (hu : u < 65536) (rest : List Nat) :
    parseHex4 (hex4 u ++ rest) = some (u, rest) := by
  have h1 := hexVal_hexChar (u / 4096 % 16) (Nat.mod_lt _ (by norm_num))
  have h2 := hexVal_hexChar (u / 256 % 16) (Nat.mod_lt _ (by norm_num))
  have h3 := hexVal_hexChar (u / 16 % 16) (Nat.mod_lt _ (by norm_num))
  have h4 := hexVal_hexChar (u % 16) (Nat.mod_lt _ (by norm_num))
  simp [hex4, parseHex4, h1, h2, h3, h4]
  omega

/-- One parsing step on a single-character backslash escape. -/
theorem parseStrBody_step_esc (fu k ch : Nat) (t : List Nat)
    (hk : ¬(k = 117)) (htab : escTable k = some ch) :
    parseStrBody (fu + 1) (92 :: k :: t) =
      (parseStrBody fu t).map (fun p => (ch :: p.1, p.2)) := by
  simp [parseStrBody, hk, htab]

/-- One parsing step on a literal (unescaped) character. -/
theorem parseStrBody_step_lit (fu c : Nat) (t : List Nat)
    (h34 : ¬(c = 34)) (h92 : ¬(c = 92)) (hge : ¬(c < 32)) :
    parseStrBody (fu + 1) (c :: t) =
      (parseStrBody fu t).map (fun p => (c :: p.1, p.2)) := by
  simp [parseStrBody, h34, h92, hge]

/-- One parsing step on any `\uXXXX` escape: the hex quad is decoded and
the scanner continues according to the surrogate tests, with the tail left
symbolic. -/
theorem parseStrBody_step_u (fu u : Nat) (t2 : List Nat) (hu : u < 65536) :
    parseStrBody (fu + 1) (92 :: 117 :: (hex4 u ++ t2)) =
      if 55296 ≤ u ∧ u ≤ 56319 then
        if startsWith t2 [92, 117] = true then
          match parseHex4 (t2.drop 2) with
          | none => none
          | some (u2, t4) =>
            if 56320 ≤ u2 ∧ u2 ≤ 57343 then
              (parseStrBody fu t4).map
                (fun p => ((65536 + (u - 55296) * 1024 + (u2 - 56320)) :: p.1, p.2))
            else (parseStrBody fu t2).map (fun p => (u :: p.1, p.2))
        else (parseStrBody fu t2).map (fun p => (u :: p.1, p.2))
      else (parseStrBody fu t2).map (fun p => (u :: p.1, p.2)) := by
  have hh := parseHex4_hex4 u hu t2
  simp only [parseStrBody]
  norm_num
  simp only [hh]

/-- One parsing step on a `\uXXXX` escape that is not a high surrogate. -/
theorem parseStrBody_step_hex (fu u : Nat) (t : List Nat)
    (hu : u < 65536) (hns : ¬(55296 ≤ u ∧ u ≤ 56319)) :
    parseStrBody (fu + 1) (92 :: 117 :: (hex4 u ++ t)) =
      (parseStrBody fu t).map (fun p => (u :: p.1, p.2)) := by
  rw [parseStrBody_step_u fu u t hu, if_neg hns]

/-- One parsing step on a surrogate-pair escape: the two `\uXXXX` units are
recombined into the astral code point. -/
theorem parseStrBody_step_pair (fu c : Nat) (t : List Nat)
    (hge : 65536 ≤ c) (hlt : c < 1114112) :
    parseStrBody (fu + 1) (92 :: 117 :: (hex4 (55296 + (c - 65536) / 1024) ++
      (92 :: 117 :: (hex4 (56320 + (c - 65536) % 1024) ++ t)))) =
      (parseStrBody fu t).map (fun p => (c :: p.1, p.2)) := by
  have hdivlt : (c - 65536) / 1024 < 1024 := by
    have : c - 65536 < 1048576 := by omega
    omega
  have hmodlt : (c - 65536) % 1024 < 1024 := Nat.mod_lt _ (by norm_num)
  have hlo := parseHex4_hex4 (56320 + (c - 65536) % 1024) (by omega) t
  rw [parseStrBody_step_u fu (55296 + (c - 65536) / 1024)
    (92 :: 117 :: (hex4 (56320 + (c - 65536) % 1024) ++ t)) (by omega)]
  rw [if_pos (show 55296 ≤ 55296 + (c - 65536) / 1024 ∧
    55296 + (c - 65536) / 1024 ≤ 56319 by omega)]
  have hstart : startsWith
      (92 :: 117 :: (hex4 (56320 + (c - 65536) % 1024) ++ t)) [92, 117] = true := by
    simp [startsWith]
  rw [if_pos hstart]
  have hdrop : List.drop 2
      (92 :: 117 :: (hex4 (56320 + (c - 65536) % 1024) ++ t)) =
      hex4 (56320 + (c - 65536) % 1024) ++ t := rfl
  rw [hdrop]
  simp only [hlo]
  rw [if_pos (show 56320 ≤ 56320 + (c - 65536) % 1024 ∧
    56320 + (c - 65536) % 1024 ≤ 57343 by omega)]
  have hcomb : 65536 + (55296 + (c - 65536) / 1024 - 55296) * 1024 +
      (56320 + (c - 65536) % 1024 - 56320) = c := by
    have hdm := Nat.div_add_mod (c - 65536) 1024
    omega
  rw [hcomb]

/-- Reading back an escaped string body: the escapes `json.dumps` emits are
exactly undone by `scanstring`, one code point per fuel unit. -/
theorem parseStrBody_escapeStr (s : PyStr) :
    ∀ (rest : List Nat) (fu : Nat), validStr s = true → s.length < fu →
    parseStrBody fu (escapeStr s ++ (34 :: rest)) = some (s, rest) := by
  induction s with
  | nil =>
    intro rest fu _ hfu
    cases fu with
    | zero => omega
    | succ fu' => simp [escapeStr, parseStrBody]
  | cons c s ih =>
    intro rest fu hs hfu
    cases fu with
    | zero => omega
    | succ fu' =>
      have hc : validChar c = true := by
        simp [validStr] at hs
        exact hs.1
      have hs' : validStr s = true := by
        simp [validStr] at hs ⊢
        exact hs.2
      have hfu' : s.length < fu' := by
        simp at hfu
        omega
      have hrec := ih rest fu' hs' hfu'
      show parseStrBody (fu' + 1) (escapeChar c ++ escapeStr s ++ (34 :: rest)) = _
      rw [List.append_assoc]
      by_cases h1 : c = 34
      · subst h1
        rw [show escapeChar 34 = [92, 34] from rfl]
        rw [show ([92, 34] : List Nat) ++ (escapeStr s ++ 34 :: rest) =
          92 :: 34 :: (escapeStr s ++ 34 :: rest) from rfl]
        rw [parseStrBody_step_esc fu' 34 34 _ (by norm_num) rfl, hrec]
        rfl
      · by_cases h2 : c = 92
        · subst h2
          rw [show escapeChar 92 = [92, 92] from rfl]
          rw [show ([92, 92] : List Nat) ++ (escapeStr s ++ 34 :: rest) =
            92 :: 92 :: (escapeStr s ++ 34 :: rest) from rfl]
          rw [parseStrBody_step_esc fu' 92 92 _ (by norm_num) rfl, hrec]
          rfl
        · by_cases h3 : c = 10
          · subst h3
            rw [show escapeChar 10 = [92, 110] from rfl]
            rw [show ([92, 110] : List Nat) ++ (escapeStr s ++ 34 :: rest) =
              92 :: 110 :: (escapeStr s ++ 34 :: rest) from rfl]
            rw [parseStrBody_step_esc fu' 110 10 _ (by norm_num) rfl, hrec]
            rfl
          · by_cases h4 : c = 13
            · subst h4
              rw [show escapeChar 13 = [92, 114] from rfl]
              rw [show ([92, 114] : List Nat) ++ (escapeStr s ++ 34 :: rest) =
                92 :: 114 :: (escapeStr s ++ 34 :: rest) from rfl]
              rw [parseStrBody_step_esc fu' 114 13 _ (by norm_num) rfl, hrec]
              rfl
            · by_cases h5 : c = 9
              · subst h5
                rw [show escapeChar 9 = [92, 116] from rfl]
                rw [show ([92, 116] : List Nat) ++ (escapeStr s ++ 34 :: rest) =
                  92 :: 116 :: (escapeStr s ++ 34 :: rest) from rfl]
                rw [parseStrBody_step_esc fu' 116 9 _ (by norm_num) rfl, hrec]
                rfl
              · by_cases h6 : c = 8
                · subst h6
                  rw [show escapeChar 8 = [92, 98] from rfl]
                  rw [show ([92, 98] : List Nat) ++ (escapeStr s ++ 34 :: rest) =
                    92 :: 98 :: (escapeStr s ++ 34 :: rest) from rfl]
                  rw [parseStrBody_step_esc fu' 98 8 _ (by norm_num) rfl, hrec]
                  rfl
                · by_cases h7 : c = 12
                  · subst h7
                    rw [show escapeChar 12 = [92, 102] from rfl]
                    rw [show ([92, 102] : List Nat) ++ (escapeStr s ++ 34 :: rest) =
                      92 :: 102 :: (escapeStr s ++ 34 :: rest) from rfl]
                    rw [parseStrBody_step_esc fu' 102 12 _ (by norm_num) rfl, hrec]
                    rfl
                  · by_cases h8 : c < 32
                    · have hesc : escapeChar c = 92 :: 117 :: hex4 c := by
                        simp [escapeChar, h1, h2, h3, h4, h5, h6, h7, h8]
                      rw [hesc]
                      rw [show (92 :: 117 :: hex4 c) ++ (escapeStr s ++ 34 :: rest) =
                        92 :: 117 :: (hex4 c ++ (escapeStr s ++ 34 :: rest)) from by simp]
                      rw [parseStrBody_step_hex fu' c _ (by omega) (by omega), hrec]
                      rfl
                    · by_cases h9 : c < 127
                      · have hesc : escapeChar c = [c] := by
                          simp [escapeChar, h1, h2, h3, h4, h5, h6, h7, h8, h9]
                        rw [hesc]
                        rw [show ([c] : List Nat) ++ (escapeStr s ++ 34 :: rest) =
                          c :: (escapeStr s ++ 34 :: rest) from rfl]
                        rw [parseStrBody_step_lit fu' c _ h1 h2 h8, hrec]
                        rfl
                      · by_cases h10 : c < 65536
                        · have hesc : escapeChar c = 92 :: 117 :: hex4 c := by
                            simp [escapeChar, h1, h2, h3, h4, h5, h6, h7, h8, h9, h10]
                          have hnsur : ¬(55296 ≤ c ∧ c ≤ 56319) := by
                            simp [validChar] at hc
                            omega
                          rw [hesc]
                          rw [show (92 :: 117 :: hex4 c) ++ (escapeStr s ++ 34 :: rest) =
                            92 :: 117 :: (hex4 c ++ (escapeStr s ++ 34 :: rest)) from by simp]
                          rw [parseStrBody_step_hex fu' c _ (by omega) hnsur, hrec]
                          rfl
                        · have hlt : c < 1114112 := by
                            simp [validChar] at hc
                            omega
                          have hesc : escapeChar c =
                              92 :: 117 :: hex4 (55296 + (c - 65536) / 1024) ++
                                (92 :: 117 :: hex4 (56320 + (c - 65536) % 1024)) := by
                            simp [escapeChar, h1, h2, h3, h4, h5, h6, h7, h8, h9, h10]
                          rw [hesc]
                          rw [show (92 :: 117 :: hex4 (55296 + (c - 65536) / 1024) ++
                              (92 :: 117 :: hex4 (56320 + (c - 65536) % 1024))) ++
                              (escapeStr s ++ 34 :: rest) =
                            92 :: 117 :: (hex4 (55296 + (c - 65536) / 1024) ++
                              (92 :: 117 :: (hex4 (56320 + (c - 65536) % 1024) ++
                                (escapeStr s ++ 34 :: rest)))) from by simp]
                          rw [parseStrBody_step_pair fu' c _ (by omega) hlt, hrec]
                          rfl

/-! ## Round-trip: values -/

/-- Every escape unit is at least one character long. -/
theorem escapeChar_length_pos (c : Nat) : 1 ≤ (escapeChar c).length := by
  unfold escapeChar
  repeat' split
  all_goals simp [hex4]

/-- Escaping does not shorten a string. -/
theorem escapeStr_length (s : PyStr) : s.length ≤ (escapeStr s).length := by
  induction s with
  | nil => simp [escapeStr]
  | cons c t ih =>
    have := escapeChar_length_pos c
    simp [escapeStr]
    omega

/-- The first characters `json.dumps` can emit for a value: the letters of
the literals, a sign or digit, a quote, or an opening bracket or brace. -/
def goodHead (c : Nat) : Prop :=
  c = 110 ∨ c = 116 ∨ c = 102 ∨ c = 78 ∨ c = 73 ∨ c = 45 ∨
    (48 ≤ c ∧ c ≤ 57) ∨ c = 34 ∨ c = 91 ∨ c = 123

theorem intChars_head (i : Int) :
    ∃ c t, intChars i = c :: t ∧ (c = 45 ∨ (48 ≤ c ∧ c ≤ 57)) := by
  by_cases hneg : i < 0
  · exact ⟨45, natChars i.natAbs, by simp [intChars, hneg], Or.inl rfl⟩
  · have hic : intChars i = natChars i.natAbs := by simp [intChars]; omega
    by_cases h0 : i.natAbs = 0
    · exact ⟨48, [], by rw [hic, h0]; rfl, Or.inr (by omega)⟩
    · obtain ⟨d, ds, hnc, -, hdlt, -, -⟩ := natChars_spec i.natAbs h0
      exact ⟨d + 48, ds.map (· + 48), by rw [hic, hnc], Or.inr (by omega)⟩

theorem dumpVal_head (v : PyVal) : ∃ c t, dumpVal v = c :: t ∧ goodHead c := by
  cases v with
  | pynone => exact ⟨110, _, rfl, Or.inl rfl⟩
  | pybool b =>
    cases b with
    | true => exact ⟨116, _, rfl, by simp [goodHead]⟩
    | false => exact ⟨102, _, rfl, by simp [goodHead]⟩
  | pyint n =>
    obtain ⟨c, t, he, hc⟩ := intChars_head n
    exact ⟨c, t, he, by rcases hc with h | h <;> simp [goodHead, h]⟩
  | pyfloat m e =>
    obtain ⟨c, t, he, hc⟩ := intChars_head m
    refine ⟨c, t ++ 101 :: intChars e, ?_, by rcases hc with h | h <;> simp [goodHead, h]⟩
    show intChars m ++ 101 :: intChars e = _
    rw [he]
    rfl
  | nan => exact ⟨78, _, rfl, by simp [goodHead]⟩
  | infinity neg =>
    cases neg with
    | false => exact ⟨73, _, rfl, by simp [goodHead]⟩
    | true => exact ⟨45, _, rfl, by simp [goodHead]⟩
  | pystr s => exact ⟨34, _, rfl, by simp [goodHead]⟩
  | pylist xs => exact ⟨91, _, rfl, by simp [goodHead]⟩
  | pydict kvs => exact ⟨123, _, rfl, by simp [goodHead]⟩

theorem goodHead_not_ws {c : Nat} (h : goodHead c) : isWs c = false := by
  simp [goodHead] at h
  simp [isWs]
  omega

/-- Whitespace skipping does not touch printed output. -/
theorem skipWs_dump (v : PyVal) (r : List Nat) :
    skipWs (dumpVal v ++ r) = dumpVal v ++ r := by
  obtain ⟨c, t, he, hc⟩ := dumpVal_head v
  rw [he]
  simp [skipWs, goodHead_not_ws hc]

/-- The printed form of a nonempty item list starts like its first value. -/
theorem dumpItems_head (v : PyVal) (t : PyItems) :
    ∃ c r, dumpItems (.cons v t) = c :: r ∧ goodHead c := by
  obtain ⟨c, t0, he, hc⟩ := dumpVal_head v
  cases t with
  | nil => exact ⟨c, t0 ++ [93], by simp [dumpItems, he], hc⟩
  | cons w tw => exact ⟨c, t0 ++ 44 :: 32 :: dumpItems (.cons w tw), by simp [dumpItems, he], hc⟩

mutual
/-- An upper bound on the parsing fuel one value consumes. -/
def sizeV : PyVal → Nat
  | .pylist xs => sizeItems xs + 1
  | .pydict kvs => sizeFields kvs + 1
  | _ => 1

/-- Fuel bound for an item list. -/
def sizeItems : PyItems → Nat
  | .nil => 1
  | .cons v t => sizeV v + sizeItems t + 1

/-- Fuel bound for a member list. -/
def sizeFields : PyFields → Nat
  | .nil => 1
  | .cons _ v t => sizeV v + sizeFields t + 1
end

/-- Scanner step: the `null` literal. -/
theorem parseValue_step_null (fu : Nat) (t : List Nat) :
    parseValue (fu + 1) (110 :: 117 :: 108 :: 108 :: t) = some (.pynone, t) := by
  simp [parseValue, startsWith]

/-- Scanner step: the `true` literal. -/
theorem parseValue_step_true (fu : Nat) (t : List Nat) :
    parseValue (fu + 1) (116 :: 114 :: 117 :: 101 :: t) = some (.pybool true, t) := by
  simp [parseValue, startsWith]

/-- Scanner step: the `false` literal. -/
theorem parseValue_step_false (fu : Nat) (t : List Nat) :
    parseValue (fu + 1) (102 :: 97 :: 108 :: 115 :: 101 :: t) = some (.pybool false, t) := by
  simp [parseValue, startsWith]

/-- Scanner step: the `NaN` constant. -/
theorem parseValue_step_nan (fu : Nat) (t : List Nat) :
    parseValue (fu + 1) (78 :: 97 :: 78 :: t) = some (.nan, t) := by
  simp [parseValue, startsWith, parseNum, isDigit]

/-- Scanner step: the `Infinity` constant. -/
theorem parseValue_step_inf (fu : Nat) (t : List Nat) :
    parseValue (fu + 1) (73 :: 110 :: 102 :: 105 :: 110 :: 105 :: 116 :: 121 :: t) =
      some (.infinity false, t) := by
  simp [parseValue, startsWith, parseNum, isDigit]

/-- Scanner step: the `-Infinity` constant. -/
theorem parseValue_step_ninf (fu : Nat) (t : List Nat) :
    parseValue (fu + 1) (45 :: 73 :: 110 :: 102 :: 105 :: 110 :: 105 :: 116 :: 121 :: t) =
      some (.infinity true, t) := by
  simp [parseValue, startsWith, parseNum, isDigit]

/-- Scanner step: a string. -/
theorem parseValue_step_str (fu : Nat) (t : List Nat) :
    parseValue (fu + 1) (34 :: t) =
      (parseStrBody (t.length + 1) t).map (fun p => (.pystr p.1, p.2)) := by
  simp [parseValue]

/-- Scanner step: a number, given the number branch succeeds. -/
theorem parseValue_step_num (fu c0 : Nat) (t : List Nat) (pr : PyVal × List Nat)
    (hc0 : c0 = 45 ∨ (48 ≤ c0 ∧ c0 ≤ 57)) (hnum : parseNum (c0 :: t) = some pr) :
    parseValue (fu + 1) (c0 :: t) = some pr := by
  have h34 : ¬(c0 = 34) := by omega
  have h123 : ¬(c0 = 123) := by omega
  have h91 : ¬(c0 = 91) := by omega
  have hn : startsWith (c0 :: t) [110, 117, 108, 108] = false := by
    simp [startsWith]
    omega
  have ht : startsWith (c0 :: t) [116, 114, 117, 101] = false := by
    simp [startsWith]
    omega
  have hf : startsWith (c0 :: t) [102, 97, 108, 115, 101] = false := by
    simp [startsWith]
    omega
  simp [parseValue, h34, h123, h91, hn, ht, hf, hnum]

/-- Scanner step: an array opener. -/
theorem parseValue_step_arr (fu : Nat) (t : List Nat) :
    parseValue (fu + 1) (91 :: t) =
      (if startsWith (skipWs t) [93] then some (.pylist .nil, (skipWs t).drop 1)
       else (parseItems fu (skipWs t)).map (fun p => (.pylist p.1, p.2))) := by
  simp [parseValue]

/-- Scanner step: an object opener. -/
theorem parseValue_step_obj (fu : Nat) (t : List Nat) :
    parseValue (fu + 1) (123 :: t) =
      (if startsWith (skipWs t) [125] then some (.pydict .nil, (skipWs t).drop 1)
       else (parseMembers fu (skipWs t)).map (fun p => (.pydict p.1, p.2))) := by
  simp [parseValue]


mutual
/-- Round-trip at value level: parsing the printed form of a valid value
consumes exactly the printed text. -/
theorem parseValue_dump (v : PyVal) (fu : Nat) (rest : List Nat)
    (hv : validVal v = true) (hfu : sizeV v < fu) (hrest : numSafe rest = true) :
    parseValue fu (dumpVal v ++ rest) = some (v, rest) := by
  cases fu with
  | zero => omega
  | succ fu =>
    cases v with
    | pynone =>
      show parseValue (fu + 1) ([110, 117, 108, 108] ++ rest) = _
      exact parseValue_step_null fu rest
    | pybool b =>
      cases b with
      | true =>
        show parseValue (fu + 1) ([116, 114, 117, 101] ++ rest) = _
        exact parseValue_step_true fu rest
      | false =>
        show parseValue (fu + 1) ([102, 97, 108, 115, 101] ++ rest) = _
        exact parseValue_step_false fu rest
    | pyint n =>
      show parseValue (fu + 1) (intChars n ++ rest) = _
      obtain ⟨c0, t0, he, hc0⟩ := intChars_head n
      have hnum := parseNum_intChars n rest hrest
      rw [he] at hnum ⊢
      exact parseValue_step_num fu c0 (t0 ++ rest) _ hc0 hnum
    | pyfloat m e =>
      show parseValue (fu + 1) ((intChars m ++ 101 :: intChars e) ++ rest) = _
      obtain ⟨c0, t0, he, hc0⟩ := intChars_head m
      have hnum := parseNum_floatChars m e rest hrest
      have hassoc : (intChars m ++ 101 :: intChars e) ++ rest =
          intChars m ++ 101 :: (intChars e ++ rest) := by simp
      rw [hassoc, he] at *
      exact parseValue_step_num fu c0 _ _ hc0 hnum
    | nan =>
      show parseValue (fu + 1) ([78, 97, 78] ++ rest) = _
      exact parseValue_step_nan fu rest
    | infinity neg =>
      cases neg with
      | false =>
        show parseValue (fu + 1) ([73, 110, 102, 105, 110, 105, 116, 121] ++ rest) = _
        exact parseValue_step_inf fu rest
      | true =>
        show parseValue (fu + 1) ([45, 73, 110, 102, 105, 110, 105, 116, 121] ++ rest) = _
        exact parseValue_step_ninf fu rest
    | pystr s =>
      show parseValue (fu + 1) ((34 :: (escapeStr s ++ [34])) ++ rest) = _
      rw [show (34 :: (escapeStr s ++ [34])) ++ rest =
        34 :: (escapeStr s ++ (34 :: rest)) from by simp]
      rw [parseValue_step_str]
      have hlen : s.length < (escapeStr s ++ (34 :: rest)).length + 1 := by
        have := escapeStr_length s
        simp
        omega
      rw [parseStrBody_escapeStr s rest _ (by simpa [validVal] using hv) hlen]
      rfl
    | pylist xs =>
      cases xs with
      | nil =>
        show parseValue (fu + 1) ((91 :: dumpItems .nil) ++ rest) = _
        rw [show (91 :: dumpItems .nil) ++ rest = 91 :: (93 :: rest) from rfl]
        rw [parseValue_step_arr]
        rw [show skipWs (93 :: rest) = 93 :: rest from by simp [skipWs, isWs]]
        simp [startsWith]
      | cons w tw =>
        show parseValue (fu + 1) ((91 :: dumpItems (.cons w tw)) ++ rest) = _
        rw [show (91 :: dumpItems (.cons w tw)) ++ rest =
          91 :: (dumpItems (.cons w tw) ++ rest) from rfl]
        rw [parseValue_step_arr]
        obtain ⟨c0, r0, he, hgh⟩ := dumpItems_head w tw
        have hski : skipWs (dumpItems (.cons w tw) ++ rest) =
            dumpItems (.cons w tw) ++ rest := by
          rw [he]
          simp [skipWs, goodHead_not_ws hgh]
        rw [hski]
        have hsw : startsWith (dumpItems (.cons w tw) ++ rest) [93] = false := by
          rw [he]
          simp [startsWith, goodHead] at hgh ⊢
          omega
        rw [hsw]
        simp only [Bool.false_eq_true, if_false]
        have hvw : validItems (.cons w tw) = true := by simpa [validVal] using hv
        have hfu' : sizeItems (.cons w tw) < fu := by
          simp [sizeV] at hfu
          omega
        rw [parseItems_dump (.cons w tw) fu rest hvw hfu' hrest (by simp)]
        rfl
    | pydict kvs =>
      cases kvs with
      | nil =>
        show parseValue (fu + 1) ((123 :: dumpFields .nil) ++ rest) = _
        rw [show (123 :: dumpFields .nil) ++ rest = 123 :: (125 :: rest) from rfl]
        rw [parseValue_step_obj]
        rw [show skipWs (125 :: rest) = 125 :: rest from by simp [skipWs, isWs]]
        simp [startsWith]
      | cons k w tw =>
        show parseValue (fu + 1) ((123 :: dumpFields (.cons k w tw)) ++ rest) = _
        rw [show (123 :: dumpFields (.cons k w tw)) ++ rest =
          123 :: (dumpFields (.cons k w tw) ++ rest) from rfl]
        rw [parseValue_step_obj]
        have hhead : ∃ r0, dumpFields (.cons k w tw) = 34 :: r0 := by
          cases tw <;> exact ⟨_, rfl⟩
        obtain ⟨r0, he⟩ := hhead
        have hski : skipWs (dumpFields (.cons k w tw) ++ rest) =
            dumpFields (.cons k w tw) ++ rest := by
          rw [he]
          simp [skipWs, isWs]
        rw [hski]
        have hsw : startsWith (dumpFields (.cons k w tw) ++ rest) [125] = false := by
          rw [he]
          simp [startsWith]
        rw [hsw]
        simp only [Bool.false_eq_true, if_false]
        have hvw : validFields (.cons k w tw) = true := by simpa [validVal] using hv
        have hfu' : sizeFields (.cons k w tw) < fu := by
          simp [sizeV] at hfu
          omega
        rw [parseMembers_dump (.cons k w tw) fu rest hvw hfu' hrest (by simp)]
        rfl
termination_by sizeV v
decreasing_by all_goals subst_vars; simp only [sizeV, sizeItems, sizeFields]; omega

/-- Round-trip for the element region of a nonempty array, including the
closing bracket. -/
theorem parseItems_dump (xs : PyItems) (fu : Nat) (rest : List Nat)
    (hv : validItems xs = true) (hfu : sizeItems xs < fu) (hrest : numSafe rest = true)
    (hne : xs ≠ .nil) :
    parseItems fu (dumpItems xs ++ rest) = some (xs, rest) := by
  cases fu with
  | zero => omega
  | succ fu =>
    cases xs with
    | nil => exact absurd rfl hne
    | cons v t =>
      have hvv : validVal v = true := by
        simp [validItems] at hv
        exact hv.1
      have hvt : validItems t = true := by
        simp [validItems] at hv
        exact hv.2
      cases t with
      | nil =>
        show parseItems (fu + 1) ((dumpVal v ++ [93]) ++ rest) = _
        rw [show (dumpVal v ++ [93]) ++ rest = dumpVal v ++ (93 :: rest) from by simp]
        have hval := parseValue_dump v fu (93 :: rest) hvv
          (by simp [sizeItems] at hfu; omega) rfl
        simp [parseItems, hval, skipWs, isWs]
      | cons w tw =>
        show parseItems (fu + 1) ((dumpVal v ++ 44 :: 32 :: dumpItems (.cons w tw)) ++ rest) = _
        rw [show (dumpVal v ++ 44 :: 32 :: dumpItems (.cons w tw)) ++ rest =
          dumpVal v ++ (44 :: 32 :: (dumpItems (.cons w tw) ++ rest)) from by simp]
        have hval := parseValue_dump v fu (44 :: 32 :: (dumpItems (.cons w tw) ++ rest)) hvv
          (by simp [sizeItems] at hfu; omega) rfl
        obtain ⟨c0, r0, he, hgh⟩ := dumpItems_head w tw
        have hski : skipWs (dumpItems (.cons w tw) ++ rest) =
            dumpItems (.cons w tw) ++ rest := by
          rw [he]
          simp [skipWs, goodHead_not_ws hgh]
        have hrec := parseItems_dump (.cons w tw) fu rest hvt
          (by simp [sizeItems] at hfu ⊢; omega) hrest (by simp)
        simp [parseItems, hval, skipWs, isWs, hski, hrec]
termination_by sizeItems xs
decreasing_by all_goals subst_vars; simp only [sizeV, sizeItems, sizeFields]; omega

/-- Round-trip for the member region of a nonempty object, including the
closing brace. -/
theorem parseMembers_dump (kvs : PyFields) (fu : Nat) (rest : List Nat)
    (hv : validFields kvs = true) (hfu : sizeFields kvs < fu) (hrest : numSafe rest = true)
    (hne : kvs ≠ .nil) :
    parseMembers fu (dumpFields kvs ++ rest) = some (kvs, rest) := by
  cases fu with
  | zero => omega
  | succ fu =>
    cases kvs with
    | nil => exact absurd rfl hne
    | cons k v t =>
      have hv' := hv
      simp [validFields] at hv'
      obtain ⟨⟨hvk, hvv⟩, hvt⟩ := hv'
      cases t with
      | nil =>
        show parseMembers (fu + 1)
          (((34 :: (escapeStr k ++ [34])) ++ 58 :: 32 :: dumpVal v ++ [125]) ++ rest) = _
        rw [show ((34 :: (escapeStr k ++ [34])) ++ 58 :: 32 :: dumpVal v ++ [125]) ++ rest =
          34 :: (escapeStr k ++ (34 :: (58 :: 32 :: (dumpVal v ++ (125 :: rest))))) from by simp]
        have hstr := parseStrBody_escapeStr k (58 :: 32 :: (dumpVal v ++ (125 :: rest)))
          ((escapeStr k ++ (34 :: (58 :: 32 :: (dumpVal v ++ (125 :: rest))))).length + 1) hvk
          (by have := escapeStr_length k; simp; omega)
        have hval := parseValue_dump v fu (125 :: rest) hvv
          (by simp [sizeFields] at hfu; omega) rfl
        simp only [parseMembers]
        simp only [hstr]
        simp [skipWs, isWs, skipWs_dump, hval]
      | cons k2 v2 t2 =>
        show parseMembers (fu + 1)
          (((34 :: (escapeStr k ++ [34])) ++ 58 :: 32 :: dumpVal v ++
            44 :: 32 :: dumpFields (.cons k2 v2 t2)) ++ rest) = _
        rw [show ((34 :: (escapeStr k ++ [34])) ++ 58 :: 32 :: dumpVal v ++
            44 :: 32 :: dumpFields (.cons k2 v2 t2)) ++ rest =
          34 :: (escapeStr k ++ (34 :: (58 :: 32 ::
            (dumpVal v ++ (44 :: 32 :: (dumpFields (.cons k2 v2 t2) ++ rest)))))) from by simp]
        have hstr := parseStrBody_escapeStr k
          (58 :: 32 :: (dumpVal v ++ (44 :: 32 :: (dumpFields (.cons k2 v2 t2) ++ rest))))
          ((escapeStr k ++ (34 :: (58 :: 32 ::
            (dumpVal v ++ (44 :: 32 :: (dumpFields (.cons k2 v2 t2) ++ rest)))))).length + 1) hvk
          (by have := escapeStr_length k; simp; omega)
        have hval := parseValue_dump v fu
          (44 :: 32 :: (dumpFields (.cons k2 v2 t2) ++ rest)) hvv
          (by simp [sizeFields] at hfu; omega) rfl
        have hhead : ∃ r0, dumpFields (.cons k2 v2 t2) = 34 :: r0 := by
          cases t2 <;> exact ⟨_, rfl⟩
        obtain ⟨r0, he⟩ := hhead
        have hski : skipWs (dumpFields (.cons k2 v2 t2) ++ rest) =
            dumpFields (.cons k2 v2 t2) ++ rest := by
          rw [he]
          simp [skipWs, isWs]
        have hrec := parseMembers_dump (.cons k2 v2 t2) fu rest hvt
          (by simp [sizeFields] at hfu ⊢; omega) hrest (by simp)
        simp only [parseMembers]
        simp only [hstr]
        simp [skipWs, isWs, skipWs_dump, hski, hval, hrec]
termination_by sizeFields kvs
decreasing_by all_goals subst_vars; simp only [sizeV, sizeItems, sizeFields]; omega
end

/-! ## The top-level decoder on printed values -/

mutual
/-- The fuel bound is covered by twice the printed length. -/
theorem sizeV_le_dump (v : PyVal) : sizeV v ≤ 2 * (dumpVal v).length := by
  cases v with
  | pylist xs =>
    have := sizeItems_le_dump xs
    show sizeItems xs + 1 ≤ 2 * (91 :: dumpItems xs).length
    simp at this ⊢
    omega
  | pydict kvs =>
    have := sizeFields_le_dump kvs
    show sizeFields kvs + 1 ≤ 2 * (123 :: dumpFields kvs).length
    simp at this ⊢
    omega
  | _ =>
    obtain ⟨c, t, he, -⟩ := dumpVal_head _
    rw [he]
    simp [sizeV]
    omega

/-- Fuel bound for the printed element region. -/
theorem sizeItems_le_dump (xs : PyItems) : sizeItems xs ≤ 1 + 2 * (dumpItems xs).length := by
  cases xs with
  | nil => simp [sizeItems, dumpItems]
  | cons v t =>
    have hv := sizeV_le_dump v
    cases t with
    | nil =>
      show sizeV v + sizeItems .nil + 1 ≤ 1 + 2 * (dumpVal v ++ [93]).length
      simp [sizeItems] at *
      omega
    | cons w tw =>
      have ht := sizeItems_le_dump (.cons w tw)
      show sizeV v + sizeItems (.cons w tw) + 1 ≤
        1 + 2 * (dumpVal v ++ 44 :: 32 :: dumpItems (.cons w tw)).length
      simp at *
      omega

/-- Fuel bound for the printed member region. -/
theorem sizeFields_le_dump (kvs : PyFields) : sizeFields kvs ≤ 1 + 2 * (dumpFields kvs).length := by
  cases kvs with
  | nil => simp [sizeFields, dumpFields]
  | cons k v t =>
    have hv := sizeV_le_dump v
    cases t with
    | nil =>
      show sizeV v + sizeFields .nil + 1 ≤
        1 + 2 * ((34 :: (escapeStr k ++ [34])) ++ 58 :: 32 :: dumpVal v ++ [125]).length
      simp [sizeFields] at *
      omega
    | cons k2 v2 t2 =>
      have ht := sizeFields_le_dump (.cons k2 v2 t2)
      show sizeV v + sizeFields (.cons k2 v2 t2) + 1 ≤
        1 + 2 * ((34 :: (escapeStr k ++ [34])) ++ 58 :: 32 :: dumpVal v ++
          44 :: 32 :: dumpFields (.cons k2 v2 t2)).length
      simp at *
      omega
end

/-- Decoding the printed form of a valid value gives the value back: the
round-trip of `json.dumps` and `json.loads`. -/
theorem jsonLoads_dump (v : PyVal) (hv : validVal v = true) :
    jsonLoads (dumpVal v) = some v := by
  have hsk : skipWs (dumpVal v) = dumpVal v := by
    have := skipWs_dump v []
    simpa using this
  have hfu : sizeV v < 2 * (dumpVal v).length + 2 := by
    have := sizeV_le_dump v
    omega
  have hp := parseValue_dump v (2 * (dumpVal v).length + 2) [] hv hfu rfl
  rw [show dumpVal v ++ ([] : List Nat) = dumpVal v from by simp] at hp
  unfold jsonLoads
  rw [hsk]
  simp only [hp]
  rfl

/-! ## No newline in printed output -/

theorem hexChar_ne_nl (d : Nat) : hexChar d ≠ 10 := by
  unfold hexChar
  split <;> omega

theorem hex4_no_nl (u : Nat) : 10 ∉ hex4 u := by
  simp [hex4]
  refine ⟨?_, ?_, ?_, ?_⟩ <;> exact fun h => hexChar_ne_nl _ h.symm

theorem escapeChar_no_nl (c : Nat) : 10 ∉ escapeChar c := by
  by_cases h1 : c = 34
  · subst h1; decide
  · by_cases h2 : c = 92
    · subst h2; decide
    · by_cases h3 : c = 10
      · subst h3; decide
      · by_cases h4 : c = 13
        · subst h4; decide
        · by_cases h5 : c = 9
          · subst h5; decide
          · by_cases h6 : c = 8
            · subst h6; decide
            · by_cases h7 : c = 12
              · subst h7; decide
              · by_cases h8 : c < 32
                · have he : escapeChar c = 92 :: 117 :: hex4 c := by
                    simp [escapeChar, h1, h2, h3, h4, h5, h6, h7, h8]
                  rw [he]
                  intro hm
                  simp at hm
                  exact hex4_no_nl c hm
                · by_cases h9 : c < 127
                  · have he : escapeChar c = [c] := by
                      simp [escapeChar, h1, h2, h3, h4, h5, h6, h7, h8, h9]
                    rw [he]
                    intro hm
                    simp at hm
                    omega
                  · by_cases h10 : c < 65536
                    · have he : escapeChar c = 92 :: 117 :: hex4 c := by
                        simp [escapeChar, h1, h2, h3, h4, h5, h6, h7, h8, h9, h10]
                      rw [he]
                      intro hm
                      simp at hm
                      exact hex4_no_nl c hm
                    · have he : escapeChar c =
                          92 :: 117 :: hex4 (55296 + (c - 65536) / 1024) ++
                            (92 :: 117 :: hex4 (56320 + (c - 65536) % 1024)) := by
                        simp [escapeChar, h1, h2, h3, h4, h5, h6, h7, h8, h9, h10]
                      rw [he]
                      intro hm
                      simp at hm
                      rcases hm with h | h
                      · exact hex4_no_nl _ h
                      · exact hex4_no_nl _ h

theorem escapeStr_no_nl (s : PyStr) : 10 ∉ escapeStr s := by
  induction s with
  | nil => simp [escapeStr]
  | cons c t ih =>
    simp [escapeStr]
    exact ⟨escapeChar_no_nl c, ih⟩

theorem natChars_no_nl (n : Nat) : 10 ∉ natChars n := by
  by_cases hn : n = 0
  · subst hn; decide
  · rw [natChars_pos n hn]
    intro hm
    simp at hm

theorem intChars_no_nl (i : Int) : 10 ∉ intChars i := by
  unfold intChars
  by_cases hneg : i < 0
  · rw [if_pos hneg]
    intro hm
    rcases List.mem_cons.mp hm with h | h
    · omega
    · exact natChars_no_nl _ h
  · rw [if_neg hneg]
    exact natChars_no_nl _

mutual
/-- The printed form of a value contains no newline: JSON string escaping
keeps the line-delimited framing sound. -/
theorem dumpVal_no_nl (v : PyVal) : 10 ∉ dumpVal v := by
  cases v with
  | pynone => decide
  | pybool b => cases b <;> decide
  | pyint n => exact intChars_no_nl n
  | pyfloat m e =>
    show 10 ∉ intChars m ++ 101 :: intChars e
    intro hm
    simp at hm
    rcases hm with h | h
    · exact intChars_no_nl m h
    · exact intChars_no_nl e h
  | nan => decide
  | infinity neg => cases neg <;> decide
  | pystr s =>
    show 10 ∉ 34 :: (escapeStr s ++ [34])
    intro hm
    simp at hm
    exact escapeStr_no_nl s hm
  | pylist xs =>
    show 10 ∉ 91 :: dumpItems xs
    intro hm
    simp at hm
    exact dumpItems_no_nl xs hm
  | pydict kvs =>
    show 10 ∉ 123 :: dumpFields kvs
    intro hm
    simp at hm
    exact dumpFields_no_nl kvs hm

/-- No newline in a printed element region. -/
theorem dumpItems_no_nl (xs : PyItems) : 10 ∉ dumpItems xs := by
  cases xs with
  | nil => decide
  | cons v t =>
    cases t with
    | nil =>
      show 10 ∉ dumpVal v ++ [93]
      intro hm
      simp at hm
      exact dumpVal_no_nl v hm
    | cons w tw =>
      show 10 ∉ dumpVal v ++ 44 :: 32 :: dumpItems (.cons w tw)
      intro hm
      simp at hm
      rcases hm with h | h
      · exact dumpVal_no_nl v h
      · exact dumpItems_no_nl (.cons w tw) h

/-- No newline in a printed member region. -/
theorem dumpFields_no_nl (kvs : PyFields) : 10 ∉ dumpFields kvs := by
  cases kvs with
  | nil => decide
  | cons k v t =>
    cases t with
    | nil =>
      show 10 ∉ (34 :: (escapeStr k ++ [34])) ++ 58 :: 32 :: dumpVal v ++ [125]
      intro hm
      simp at hm
      rcases hm with h | h
      · exact escapeStr_no_nl k h
      · exact dumpVal_no_nl v h
    | cons k2 v2 t2 =>
      show 10 ∉ (34 :: (escapeStr k ++ [34])) ++ 58 :: 32 :: dumpVal v ++
        44 :: 32 :: dumpFields (.cons k2 v2 t2)
      intro hm
      simp at hm
      rcases hm with h | h | h
      · exact escapeStr_no_nl k h
      · exact dumpVal_no_nl v h
      · exact dumpFields_no_nl (.cons k2 v2 t2) h
end

theorem processBuffer_none (tbl : List (PyStr × Handler)) (peer : PyStr) (buf : List Nat)
    (h : splitNL buf = none) : processBuffer tbl peer buf = ([], buf, none) := by
  rw [processBuffer]
  split
  next => rfl
  next line rest heq =>
    rw [h] at heq
    cases heq

theorem processBuffer_step (tbl : List (PyStr × Handler)) (peer : PyStr)
    (line rest buf : List Nat) (hsp : splitNL buf = some (line, rest)) (hne : line ≠ []) :
    processBuffer tbl peer buf =
      (match processLine tbl peer line with
       | (ds, none) =>
         (ds ++ (processBuffer tbl peer rest).1, (processBuffer tbl peer rest).2.1,
           (processBuffer tbl peer rest).2.2)
       | (ds, some e) => (ds, rest, some e)) := by
  rw [processBuffer]
  split
  next heq =>
    rw [hsp] at heq
    cases heq
  next line2 rest2 heq =>
    rw [hsp] at heq
    injection heq with heq
    have h1 : line2 = line := congrArg Prod.fst heq.symm
    have h2 : rest2 = rest := congrArg Prod.snd heq.symm
    subst h1
    subst h2
    rw [if_neg hne]

theorem processBuffer_skip (tbl : List (PyStr × Handler)) (peer : PyStr)
    (rest buf : List Nat) (hsp : splitNL buf = some ([], rest)) :
    processBuffer tbl peer buf = processBuffer tbl peer rest := by
  rw [processBuffer]
  split
  next heq =>
    rw [hsp] at heq
    cases heq
  next line2 rest2 heq =>
    rw [hsp] at heq
    injection heq with heq
    have h1 : line2 = ([] : List Nat) := congrArg Prod.fst heq.symm
    have h2 : rest2 = rest := congrArg Prod.snd heq.symm
    subst h1
    subst h2
    rw [if_pos rfl]

theorem splitNL_no_nl (a r : List Nat) (h : 10 ∉ a) :
    splitNL (a ++ 10 :: r) = some (a, r) := by
  induction a with
  | nil => simp [splitNL]
  | cons c t ih =>
    have hc : ¬(c = 10) := by
      intro hc
      exact h (by simp [hc])
    have ht : 10 ∉ t := fun hm => h (by simp [hm])
    simp [splitNL, hc, ih ht]

/-- A line that fails to decode is logged and skipped. -/
theorem processLine_skip (tbl : List (PyStr × Handler)) (peer : PyStr) (line : List Nat)
    (h : jsonLoads line = none) : processLine tbl peer line = ([], none) := by
  simp [processLine, h]

/-- Processing the printed form of a wire message: decode succeeds and the
outcome is decided by the handler table and the handler. -/
theorem processLine_frame (tbl : List (PyStr × Handler)) (peer : PyStr)
    (mt : PyStr) (ts : Int) (d : PyVal)
    (hmt : validStr mt = true) (hd : validVal d = true) :
    processLine tbl peer (dumpVal (wireMessage mt ts d)) =
      (match lookupHandler tbl mt with
       | none => ([], none)
       | some h =>
         match h peer d with
         | none => ([⟨mt, peer, d⟩], none)
         | some .jsonDecodeErr => ([⟨mt, peer, d⟩], none)
         | some e => ([⟨mt, peer, d⟩], some e)) := by
  have hv : validVal (wireMessage mt ts d) = true := by
    simp [wireMessage, validVal, validFields, hmt, hd]
    decide
  have hl := jsonLoads_dump (wireMessage mt ts d) hv
  have htype : (PyFields.cons (pstr "type") (.pystr mt)
      (.cons (pstr "timestamp") (.pyint ts)
        (.cons (pstr "data") d .nil))).getLast (pstr "type") = some (.pystr mt) := by
    simp [PyFields.getLast, pstr]
  have hdata : (PyFields.cons (pstr "type") (.pystr mt)
      (.cons (pstr "timestamp") (.pyint ts)
        (.cons (pstr "data") d .nil))).getLast (pstr "data") = some d := by
    simp [PyFields.getLast, pstr]
  have hl' : jsonLoads (dumpVal (PyVal.pydict (PyFields.cons (pstr "type") (.pystr mt)
      (.cons (pstr "timestamp") (.pyint ts) (.cons (pstr "data") d .nil))))) =
      some (PyVal.pydict (PyFields.cons (pstr "type") (.pystr mt)
        (.cons (pstr "timestamp") (.pyint ts) (.cons (pstr "data") d .nil)))) := hl
  simp only [processLine, wireMessage, hl', htype, hdata]

/-! ## Streams of encoded frames -/

/-- A message as handed to `send_message`: type, timestamp, data. -/
abbrev WireMsg := PyStr × Int × PyVal

/-- The frame a message occupies on the wire. -/
def frameOf (m : WireMsg) : List Nat := encodeFrame m.1 m.2.1 m.2.2

/-- The byte stream of a message sequence. -/
def framesOf (msgs : List WireMsg) : List Nat := (msgs.map frameOf).flatten

/-- The handler invocation a message should produce at the receiver. -/
def dispatchOf (peer : PyStr) (m : WireMsg) : Dispatch := ⟨m.1, peer, m.2.2⟩

/-- A well-formed message whose type has a registered handler and whose
processing does not end the loop: the handler returns normally, or raises
`json.JSONDecodeError`, the one exception the inner `except` catches. -/
def okMsg (tbl : List (PyStr × Handler)) (peer : PyStr) (m : WireMsg) : Prop :=
  validStr m.1 = true ∧ validVal m.2.2 = true ∧
    ∃ h, lookupHandler tbl m.1 = some h ∧
      (h peer m.2.2 = none ∨ h peer m.2.2 = some .jsonDecodeErr)

/-- Processing a stream that starts with well-formed, handled frames: each
frame is dispatched in order and the loop continues into the tail. -/
theorem processBuffer_frames (tbl : List (PyStr × Handler)) (peer : PyStr)
    (msgs : List WireMsg) (tail : List Nat)
    (hok : ∀ m ∈ msgs, okMsg tbl peer m) :
    processBuffer tbl peer (framesOf msgs ++ tail) =
      (msgs.map (dispatchOf peer) ++ (processBuffer tbl peer tail).1,
        (processBuffer tbl peer tail).2.1, (processBuffer tbl peer tail).2.2) := by
  induction msgs with
  | nil => simp [framesOf]
  | cons m ms ih =>
    obtain ⟨hs, hd, h, hh, hnone⟩ := hok m (by simp)
    have hrest : framesOf (m :: ms) ++ tail =
        dumpVal (wireMessage m.1 m.2.1 m.2.2) ++ 10 :: (framesOf ms ++ tail) := by
      simp [framesOf, frameOf, encodeFrame]
    rw [hrest]
    have hsp := splitNL_no_nl _ (framesOf ms ++ tail) (dumpVal_no_nl (wireMessage m.1 m.2.1 m.2.2))
    have hne : dumpVal (wireMessage m.1 m.2.1 m.2.2) ≠ [] := by
      obtain ⟨c, t, he, -⟩ := dumpVal_head (wireMessage m.1 m.2.1 m.2.2)
      simp [he]
    rw [processBuffer_step tbl peer _ _ _ hsp hne]
    rw [processLine_frame tbl peer m.1 m.2.1 m.2.2 hs hd]
    rcases hnone with hnone | hnone <;>
      (simp only [hh, hnone]
       rw [ih (fun x hx => hok x (by simp [hx]))]
       simp [dispatchOf])

/-- Feeding more bytes after a buffer: the new bytes are reached only after
every complete line of the old buffer, and not at all once an exception has
escaped. -/
theorem processBuffer_append (tbl : List (PyStr × Handler)) (peer : PyStr) :
    ∀ (n : Nat) (buf : List Nat), buf.length ≤ n → ∀ (c : List Nat),
    processBuffer tbl peer (buf ++ c) =
      (match processBuffer tbl peer buf with
       | (ds, l, none) =>
         (ds ++ (processBuffer tbl peer (l ++ c)).1,
           (processBuffer tbl peer (l ++ c)).2.1, (processBuffer tbl peer (l ++ c)).2.2)
       | (ds, l, some e) => (ds, l ++ c, some e)) := by
  intro n
  induction n with
  | zero =>
    intro buf hlen c
    have hb : buf = [] := by
      cases buf with
      | nil => rfl
      | cons x t => simp at hlen
    subst hb
    rw [processBuffer_none tbl peer [] rfl]
    simp
  | succ n ih =>
    intro buf hlen c
    cases hsp : splitNL buf with
    | none =>
      rw [processBuffer_none _ _ _ hsp]
      simp
    | some p =>
      rcases p with ⟨line, rest⟩
      obtain ⟨hshape, hnn⟩ := splitNL_shape buf line rest hsp
      have hsp2 : splitNL (buf ++ c) = some (line, rest ++ c) := by
        rw [hshape]
        rw [show (line ++ 10 :: rest) ++ c = line ++ 10 :: (rest ++ c) from by simp]
        exact splitNL_no_nl line (rest ++ c) hnn
      have hlrest : rest.length ≤ n := by
        have := splitNL_length hsp
        omega
      by_cases hline : line = []
      · subst hline
        rw [processBuffer_skip _ _ _ _ hsp, processBuffer_skip _ _ _ _ hsp2]
        exact ih rest hlrest c
      · rw [processBuffer_step _ _ _ _ _ hsp hline, processBuffer_step _ _ _ _ _ hsp2 hline]
        rcases hpl : processLine tbl peer line with ⟨ds, err⟩
        cases err with
        | none =>
          rw [ih rest hlrest c]
          rcases hpr : processBuffer tbl peer rest with ⟨ds2, pr2⟩
          rcases pr2 with ⟨l2, err2⟩
          cases err2 <;> simp
        | some e => simp

/-- When the inner loop stops without an exception, no complete line is left
in the buffer. -/
theorem processBuffer_leftover (tbl : List (PyStr × Handler)) (peer : PyStr) :
    ∀ (n : Nat) (buf : List Nat), buf.length ≤ n →
    (processBuffer tbl peer buf).2.2 = none →
    splitNL (processBuffer tbl peer buf).2.1 = none := by
  intro n
  induction n with
  | zero =>
    intro buf hlen _
    have hb : buf = [] := by
      cases buf with
      | nil => rfl
      | cons x t => simp at hlen
    subst hb
    rw [processBuffer_none tbl peer [] rfl]
    rfl
  | succ n ih =>
    intro buf hlen herr
    cases hsp : splitNL buf with
    | none => rw [processBuffer_none _ _ _ hsp]; exact hsp
    | some p =>
      rcases p with ⟨line, rest⟩
      have hlrest : rest.length ≤ n := by
        have := splitNL_length hsp
        omega
      by_cases hline : line = []
      · subst hline
        rw [processBuffer_skip _ _ _ _ hsp] at herr ⊢
        exact ih rest hlrest herr
      · rw [processBuffer_step _ _ _ _ _ hsp hline] at herr ⊢
        rcases hpl : processLine tbl peer line with ⟨ds, err⟩
        cases err with
        | none =>
          rw [hpl] at herr
          simp at herr ⊢
          exact ih rest hlrest herr
        | some e =>
          rw [hpl] at herr
          simp at herr

/-- The outer receive loop dispatches exactly what the inner loop extracts
from the concatenation of the arriving chunks, however they are split: byte
stream order is all that matters. -/
theorem recvLoop_flatten (tbl : List (PyStr × Handler)) (peer : PyStr) :
    ∀ (chunks : List (List Nat)) (buf : List Nat), splitNL buf = none →
    recvLoop tbl peer chunks buf = (processBuffer tbl peer (buf ++ chunks.flatten)).1 := by
  intro chunks
  induction chunks with
  | nil =>
    intro buf h
    rw [show buf ++ ([] : List (List Nat)).flatten = buf from by simp]
    rw [processBuffer_none _ _ _ h]
    rfl
  | cons c cs ih =>
    intro buf h
    have hassoc : buf ++ (c :: cs).flatten = (buf ++ c) ++ cs.flatten := by simp
    rw [hassoc]
    have happ := processBuffer_append tbl peer (buf ++ c).length (buf ++ c) le_rfl cs.flatten
    rcases hp : processBuffer tbl peer (buf ++ c) with ⟨ds, pr⟩
    rcases pr with ⟨l, err⟩
    rw [hp] at happ
    cases err with
    | some e =>
      rw [happ]
      show (match (processBuffer tbl peer (buf ++ c)).2.2 with
        | some _ => (processBuffer tbl peer (buf ++ c)).1
        | none => (processBuffer tbl peer (buf ++ c)).1 ++
            recvLoop tbl peer cs (processBuffer tbl peer (buf ++ c)).2.1) = ds
      rw [hp]
    | none =>
      rw [happ]
      have hleft : splitNL l = none := by
        have := processBuffer_leftover tbl peer (buf ++ c).length (buf ++ c) le_rfl
          (by rw [hp])
        rwa [hp] at this
      show (match (processBuffer tbl peer (buf ++ c)).2.2 with
        | some _ => (processBuffer tbl peer (buf ++ c)).1
        | none => (processBuffer tbl peer (buf ++ c)).1 ++
            recvLoop tbl peer cs (processBuffer tbl peer (buf ++ c)).2.1) = _
      rw [hp]
      show ds ++ recvLoop tbl peer cs l = _
      rw [ih l hleft]

/-! ## Registry and socket-set lemmas -/

theorem regLookup_erase (r : List (PyStr × Nat)) (pid : PyStr) :
    regLookup (regErase r pid) pid = none := by
  unfold regLookup regErase
  rw [List.find?_eq_none.mpr]
  · rfl
  · intro x hx
    have := (List.mem_filter.mp hx).2
    simpa using this

theorem closeSock_not_mem (sys : Sys) (sock : Nat) : sock ∉ (closeSock sys sock).opens := by
  unfold closeSock
  intro hm
  have := (List.mem_filter.mp hm).2
  simp at this

theorem regLookup_set (r : List (PyStr × Nat)) (pid : PyStr) (sock : Nat) :
    regLookup (regSet r pid sock) pid = some sock := by
  unfold regSet
  by_cases hp : (r.find? (fun p => p.1 == pid)).isSome
  · rw [if_pos hp]
    unfold regLookup
    induction r with
    | nil => simp at hp
    | cons x t ih =>
      by_cases hx : (x.1 == pid) = true
      · simp [List.find?, hx]
      · have hxf : (x.1 == pid) = false := by
          cases h : (x.1 == pid)
          · rfl
          · exact absurd h hx
        have hp' : (t.find? (fun p => p.1 == pid)).isSome = true := by
          simp [List.find?, hxf] at hp
          simpa using hp
        have := ih hp'
        simp [List.find?, hxf] at this ⊢
        exact this
  · rw [if_neg hp]
    unfold regLookup
    rw [List.find?_append]
    have hnone : r.find? (fun p => p.1 == pid) = none :=
      Option.not_isSome_iff_eq_none.mp hp
    rw [hnone]
    simp [List.find?]

theorem foldl_closeSock (peers : List (PyStr × Nat)) :
    ∀ (sys : Sys),
    peers.foldl (fun s q => closeSock s q.2) sys =
      { sys with opens :=
          peers.foldl (fun acc q => acc.filter (fun s => !(s == q.2))) sys.opens } := by
  induction peers with
  | nil => intro sys; rfl
  | cons x xs ih =>
    intro sys
    show xs.foldl (fun s q => closeSock s q.2) (closeSock sys x.2) = _
    rw [ih (closeSock sys x.2)]
    rfl

theorem filter_foldl_stable (p : Nat → Bool) (peers : List (PyStr × Nat)) :
    ∀ (l : List Nat),
    (peers.foldl (fun acc q => acc.filter (fun s => !(s == q.2))) (l.filter p)).filter p =
      peers.foldl (fun acc q => acc.filter (fun s => !(s == q.2))) (l.filter p) := by
  induction peers with
  | nil =>
    intro l
    simp [List.filter_filter]
  | cons x xs ih =>
    intro l
    show (xs.foldl (fun acc q => acc.filter (fun s => !(s == q.2)))
        ((l.filter p).filter (fun s => !(s == x.2)))).filter p =
      xs.foldl (fun acc q => acc.filter (fun s => !(s == q.2)))
        ((l.filter p).filter (fun s => !(s == x.2)))
    rw [List.filter_comm]
    exact ih (l.filter (fun s => !(s == x.2)))

/-! ## The claims -/

/-- C1: for every sequence of N well-formed, frame-delimited messages
arriving on one connection's receive loop — in whatever chunks the stream is
delivered — the handler registered for each message's type is invoked
exactly N times, in the order the frames appear in the byte stream, with the
peer id and the message's `data` field as arguments; the dispatch list
equals the message list, so no frame is dispatched before every earlier
frame has been processed. -/
theorem claim_c1_dispatch_in_order (tbl : List (PyStr × Handler)) (peer : PyStr)
    (msgs : List WireMsg) (chunks : List (List Nat))
    (hok : ∀ m ∈ msgs, okMsg tbl peer m)
    (hstream : chunks.flatten = framesOf msgs) :
    recvLoop tbl peer chunks [] = msgs.map (dispatchOf peer) := by
  rw [recvLoop_flatten tbl peer chunks [] rfl]
  rw [show ([] : List Nat) ++ chunks.flatten = chunks.flatten from by simp, hstream]
  rw [show framesOf msgs = framesOf msgs ++ [] from by simp]
  rw [processBuffer_frames tbl peer msgs [] hok]
  rw [processBuffer_none tbl peer [] rfl]
  simp

/-- Witness for C1: two `ping` messages delivered in two chunks split in the
middle of a frame are dispatched exactly twice, in order. -/
theorem claim_c1_dispatch_in_order_witness :
    recvLoop [(pstr "ping", (fun _ _ => none : Handler))] (pstr "p")
      [(framesOf [(pstr "ping", (5 : Int), PyVal.pyint 1),
                  (pstr "ping", (6 : Int), PyVal.pyint 2)]).take 17,
       (framesOf [(pstr "ping", (5 : Int), PyVal.pyint 1),
                  (pstr "ping", (6 : Int), PyVal.pyint 2)]).drop 17] [] =
      [⟨pstr "ping", pstr "p", PyVal.pyint 1⟩, ⟨pstr "ping", pstr "p", PyVal.pyint 2⟩] :=
  claim_c1_dispatch_in_order [(pstr "ping", (fun _ _ => none : Handler))] (pstr "p")
    [(pstr "ping", (5 : Int), PyVal.pyint 1), (pstr "ping", (6 : Int), PyVal.pyint 2)] _
    (by
      intro m hm
      rcases List.mem_cons.mp hm with h | h
      · subst h
        exact ⟨by decide, by decide, ⟨fun _ _ => none, rfl, Or.inl rfl⟩⟩
      · rcases List.mem_cons.mp h with h2 | h2
        · subst h2
          exact ⟨by decide, by decide, ⟨fun _ _ => none, rfl, Or.inl rfl⟩⟩
        · simp at h2)
    (by simp)

/-- C2: a frame that fails to decode as JSON is logged and skipped: its
bytes and delimiter are consumed, no exception escapes the inner loop (the
connection stays open and the loop keeps running), and every well-formed
frame before and after the malformed one is still dispatched. -/
theorem claim_c2_bad_frame_skipped (tbl : List (PyStr × Handler)) (peer : PyStr)
    (pre post : List WireMsg) (bad : List Nat)
    (hpre : ∀ m ∈ pre, okMsg tbl peer m) (hpost : ∀ m ∈ post, okMsg tbl peer m)
    (hbad : jsonLoads bad = none) (hnn : 10 ∉ bad) :
    processBuffer tbl peer (framesOf pre ++ (bad ++ 10 :: framesOf post)) =
      (pre.map (dispatchOf peer) ++ post.map (dispatchOf peer), [], none) := by
  have hpost' : processBuffer tbl peer (framesOf post) =
      (post.map (dispatchOf peer), [], none) := by
    rw [show framesOf post = framesOf post ++ [] from by simp]
    rw [processBuffer_frames tbl peer post [] hpost]
    rw [processBuffer_none tbl peer [] rfl]
    simp
  have hmid : processBuffer tbl peer (bad ++ 10 :: framesOf post) =
      (post.map (dispatchOf peer), [], none) := by
    have hsp := splitNL_no_nl bad (framesOf post) hnn
    by_cases hbe : bad = []
    · subst hbe
      rw [processBuffer_skip _ _ _ _ (by simpa using hsp)]
      exact hpost'
    · rw [processBuffer_step _ _ _ _ _ hsp hbe]
      rw [processLine_skip tbl peer bad hbad]
      rw [hpost']
      simp
  rw [processBuffer_frames tbl peer pre _ hpre, hmid]

/-- Witness for C2: a malformed line between two well-formed `ping` frames;
both well-formed frames are dispatched and no exception escapes. -/
theorem claim_c2_bad_frame_skipped_witness :
    processBuffer [(pstr "ping", (fun _ _ => none : Handler))] (pstr "p")
      (framesOf [(pstr "ping", (5 : Int), PyVal.pyint 1)] ++
        (pstr "\x7boops" ++ 10 :: framesOf [(pstr "ping", (6 : Int), PyVal.pyint 2)])) =
      ([⟨pstr "ping", pstr "p", PyVal.pyint 1⟩, ⟨pstr "ping", pstr "p", PyVal.pyint 2⟩],
        [], none) :=
  claim_c2_bad_frame_skipped [(pstr "ping", (fun _ _ => none : Handler))] (pstr "p")
    [(pstr "ping", (5 : Int), PyVal.pyint 1)] [(pstr "ping", (6 : Int), PyVal.pyint 2)]
    (pstr "\x7boops")
    (by
      intro m hm
      rcases List.mem_cons.mp hm with h | h
      · subst h
        exact ⟨by decide, by decide, ⟨fun _ _ => none, rfl, Or.inl rfl⟩⟩
      · simp at h)
    (by
      intro m hm
      rcases List.mem_cons.mp hm with h | h
      · subst h
        exact ⟨by decide, by decide, ⟨fun _ _ => none, rfl, Or.inl rfl⟩⟩
      · simp at h)
    (by decide)
    (by decide)

/-- The value `message.get(k)` would produce at the receiver for a decoded
message. -/
def msgField (v : PyVal) (k : PyStr) : Option PyVal :=
  match v with
  | .pydict kvs => kvs.getLast k
  | _ => none

/-- C3: encoding a message (JSON text plus trailing newline) and then
splitting the frame at the first newline and decoding the line as JSON
yields a message whose `type` and `data` equal the originals; the split
consumes the whole frame (nothing follows the delimiter). -/
theorem claim_c3_codec_roundtrip (mt : PyStr) (ts : Int) (d : PyVal)
    (hmt : validStr mt = true) (hd : validVal d = true) :
    ∃ line msg,
      splitNL (encodeFrame mt ts d) = some (line, []) ∧
      jsonLoads line = some msg ∧
      msgField msg (pstr "type") = some (.pystr mt) ∧
      msgField msg (pstr "data") = some d := by
  refine ⟨dumpVal (wireMessage mt ts d), wireMessage mt ts d, ?_, ?_, ?_, ?_⟩
  · show splitNL (dumpVal (wireMessage mt ts d) ++ [10]) = _
    rw [show dumpVal (wireMessage mt ts d) ++ [10] =
      dumpVal (wireMessage mt ts d) ++ 10 :: [] from rfl]
    exact splitNL_no_nl _ [] (dumpVal_no_nl _)
  · refine jsonLoads_dump _ ?_
    simp [wireMessage, validVal, validFields, hmt, hd]
    decide
  · simp [wireMessage, msgField, PyFields.getLast, pstr]
  · simp [wireMessage, msgField, PyFields.getLast, pstr]

/-- Witness for C3: the spec's example message round-trips. -/
theorem claim_c3_codec_roundtrip_witness :
    ∃ line msg,
      splitNL (encodeFrame (pstr "t") 1700000000
        (.pydict (.cons (pstr "k") (.pystr (pstr "v")) .nil))) = some (line, []) ∧
      jsonLoads line = some msg ∧
      msgField msg (pstr "type") = some (.pystr (pstr "t")) ∧
      msgField msg (pstr "data") =
        some (.pydict (.cons (pstr "k") (.pystr (pstr "v")) .nil)) :=
  claim_c3_codec_roundtrip (pstr "t") 1700000000
    (.pydict (.cons (pstr "k") (.pystr (pstr "v")) .nil)) (by decide) (by decide)

/-- C5: sending to a peer id absent from the registry returns false,
performs no socket operation, and leaves the whole system state unchanged. -/
theorem claim_c5_send_unknown_peer (sys : Sys) (pid mt : PyStr) (d : PyVal)
    (ts : Int) (writeOk : Bool)
    (h : regLookup sys.node.peer_connections pid = none) :
    sendMessage sys pid mt d ts writeOk = (false, sys, []) := by
  simp [sendMessage, h]

/-- Witness for C5: a node with an empty registry. -/
theorem claim_c5_send_unknown_peer_witness :
    sendMessage ⟨⟨9999, none, [], [], true⟩, [], 0⟩ (pstr "x") (pstr "t")
      (.pydict .nil) 0 true =
      (false, ⟨⟨9999, none, [], [], true⟩, [], 0⟩, []) :=
  claim_c5_send_unknown_peer ⟨⟨9999, none, [], [], true⟩, [], 0⟩ (pstr "x") (pstr "t")
    (.pydict .nil) 0 true rfl

/-- C6: when the socket write fails, send returns false and the peer's
registry entry is untouched (the system state is unchanged); the entry is
removed only by that connection's worker loop, whose cleanup deletes it. -/
theorem claim_c6_send_failure_keeps_entry (sys : Sys) (pid mt : PyStr) (d : PyVal)
    (ts : Int) (sock : Nat)
    (h : regLookup sys.node.peer_connections pid = some sock) :
    (sendMessage sys pid mt d ts false).1 = false ∧
    (sendMessage sys pid mt d ts false).2.1 = sys ∧
    regLookup (sendMessage sys pid mt d ts false).2.1.node.peer_connections pid = some sock ∧
    (∀ chunks, regLookup
      (handlePeerMessages sys sock pid chunks).1.node.peer_connections pid = none) := by
  refine ⟨by simp [sendMessage, h], by simp [sendMessage, h], by simp [sendMessage, h], ?_⟩
  intro chunks
  show regLookup (regErase _ pid) pid = none
  exact regLookup_erase _ pid

/-- Witness for C6: one registered peer whose write fails. -/
theorem claim_c6_send_failure_keeps_entry_witness :
    (sendMessage ⟨⟨9999, none, [(pstr "a", 7)], [], true⟩, [7], 8⟩ (pstr "a") (pstr "t")
        (.pydict .nil) 0 false).1 = false ∧
    (sendMessage ⟨⟨9999, none, [(pstr "a", 7)], [], true⟩, [7], 8⟩ (pstr "a") (pstr "t")
        (.pydict .nil) 0 false).2.1 = ⟨⟨9999, none, [(pstr "a", 7)], [], true⟩, [7], 8⟩ ∧
    regLookup (sendMessage ⟨⟨9999, none, [(pstr "a", 7)], [], true⟩, [7], 8⟩ (pstr "a")
        (pstr "t") (.pydict .nil) 0 false).2.1.node.peer_connections (pstr "a") = some 7 ∧
    (∀ chunks, regLookup
      (handlePeerMessages ⟨⟨9999, none, [(pstr "a", 7)], [], true⟩, [7], 8⟩ 7 (pstr "a")
        chunks).1.node.peer_connections (pstr "a") = none) :=
  claim_c6_send_failure_keeps_entry ⟨⟨9999, none, [(pstr "a", 7)], [], true⟩, [7], 8⟩
    (pstr "a") (pstr "t") (.pydict .nil) 0 7 rfl

/-- C7: a successful connect for an already-registered peer id replaces the
registry entry with the fresh socket, returns true, and does not close the
previously registered connection — the old socket handle stays open and no
close operation is performed. -/
theorem claim_c7_reconnect_replaces_without_close (sys : Sys) (addr : PyStr)
    (port : Nat) (pid : PyStr) (oldSock : Nat)
    (hold : regLookup sys.node.peer_connections pid = some oldSock)
    (hopen : oldSock ∈ sys.opens) :
    (connectToPeer sys addr port pid true).1 = true ∧
    regLookup (connectToPeer sys addr port pid true).2.1.node.peer_connections pid =
      some sys.nextSock ∧
    oldSock ∈ (connectToPeer sys addr port pid true).2.1.opens ∧
    (∀ s, SockOp.close s ∉ (connectToPeer sys addr port pid true).2.2) := by
  refine ⟨rfl, ?_, ?_, ?_⟩
  · show regLookup (regSet _ pid sys.nextSock) pid = some sys.nextSock
    exact regLookup_set _ pid sys.nextSock
  · show oldSock ∈ sys.nextSock :: sys.opens
    exact List.mem_cons_of_mem _ hopen
  · intro s
    show SockOp.close s ∉ [SockOp.connect addr port sys.nextSock]
    simp

/-- Witness for C7: reconnecting peer `a` over an existing connection. -/
theorem claim_c7_reconnect_replaces_without_close_witness :
    (connectToPeer ⟨⟨9999, none, [(pstr "a", 7)], [], true⟩, [7], 8⟩ (pstr "h") 80
        (pstr "a") true).1 = true ∧
    regLookup (connectToPeer ⟨⟨9999, none, [(pstr "a", 7)], [], true⟩, [7], 8⟩ (pstr "h") 80
        (pstr "a") true).2.1.node.peer_connections (pstr "a") = some 8 ∧
    7 ∈ (connectToPeer ⟨⟨9999, none, [(pstr "a", 7)], [], true⟩, [7], 8⟩ (pstr "h") 80
        (pstr "a") true).2.1.opens ∧
    (∀ s, SockOp.close s ∉ (connectToPeer ⟨⟨9999, none, [(pstr "a", 7)], [], true⟩, [7], 8⟩
        (pstr "h") 80 (pstr "a") true).2.2) :=
  claim_c7_reconnect_replaces_without_close ⟨⟨9999, none, [(pstr "a", 7)], [], true⟩, [7], 8⟩
    (pstr "h") 80 (pstr "a") 7 rfl (by simp)

/-- C8: the NAT helper's port-mapping request is total (all failure modes
degrade to `false` rather than raising): it returns true exactly when
the import succeeds, discovery returns a nonempty device list, the local address
lookup succeeds and the mapping request against the first device succeeds;
on success the helper's enabled status is set; on failure the helper state
is untouched. -/
theorem claim_c8_port_mapping_total (env : UpnpEnv) (st : NatHelper) (port : Nat) :
    ((setupPortForwarding env st port).1 = true ↔
      (env.importOk = true ∧ ∃ d ds ip, env.discover = .ok (d :: ds) ∧
        env.localIp = .ok ip ∧ env.addPortMapping d port ip = none)) ∧
    ((setupPortForwarding env st port).1 = true →
      (setupPortForwarding env st port).2.upnp_enabled = true) ∧
    ((setupPortForwarding env st port).1 = false →
      (setupPortForwarding env st port).2 = st) := by
  unfold setupPortForwarding
  split
  next himp =>
    have h0 : env.importOk = false := by
      cases h : env.importOk
      · rfl
      · rw [h] at himp; simp at himp
    simp [h0]
  next himp =>
    have h1 : env.importOk = true := by
      cases h : env.importOk
      · rw [h] at himp; simp at himp
      · rfl
    split
    next u heq => simp [heq]
    next heq => simp [heq]
    next d tail heq =>
      split
      next u heq2 => simp [heq, heq2]
      next ip heq2 =>
        split
        next u heq3 =>
          simp [heq, heq2]
          intro _ h3
          rw [heq3] at h3
          cases h3
        next heq3 =>
          simp [h1, heq, heq2, heq3]

/-- Closed form of `stop_node`: running flag cleared, registry cleared, the
listening socket (if any) and every registered connection closed. -/
theorem stopNode_eq (sys : Sys) :
    stopNode sys =
      { node := { sys.node with is_running := false, peer_connections := [] },
        opens := sys.node.peer_connections.foldl
          (fun acc q => acc.filter (fun s => !(s == q.2)))
          (match sys.node.socket with
           | none => sys.opens
           | some sid => sys.opens.filter (fun s => !(s == sid))),
        nextSock := sys.nextSock } := by
  unfold stopNode
  dsimp only
  cases hs : sys.node.socket with
  | none => rw [foldl_closeSock]
  | some sid => rw [foldl_closeSock]; rfl

/-- C4: after `stop_node` the connection registry is empty and a subsequent
send to any peer id returns false without touching state or performing any
socket operation; calling `stop_node` again is a no-op — the node stays
stopped with an empty registry and, all operations being total, nothing is
raised. -/
theorem claim_c4_stop_empties_and_idempotent (sys : Sys) (pid mt : PyStr)
    (d : PyVal) (ts : Int) (writeOk : Bool) :
    (stopNode sys).node.peer_connections = [] ∧
    sendMessage (stopNode sys) pid mt d ts writeOk = (false, stopNode sys, []) ∧
    stopNode (stopNode sys) = stopNode sys := by
  refine ⟨rfl, by simp [sendMessage, regLookup, stopNode_eq], ?_⟩
  rw [stopNode_eq sys, stopNode_eq]
  cases hs : sys.node.socket with
  | none => rfl
  | some sid =>
    have hstab := filter_foldl_stable (fun s => !(s == sid))
      sys.node.peer_connections sys.opens
    simp only [List.foldl_nil]
    congr 1

/-- A received line on which the per-line `try` raises something other than
`json.JSONDecodeError`: valid JSON that is not an object (`.get` raises
`AttributeError`), an object without `'data'` whose `'type'` has a
registered handler (`message['data']` raises `KeyError`), or a handler that
raises an exception other than `json.JSONDecodeError`. -/
def fatalLine (tbl : List (PyStr × Handler)) (peer : PyStr) (line : List Nat) : Prop :=
  (∃ v, jsonLoads line = some v ∧ ∀ kvs, v ≠ .pydict kvs) ∨
  (∃ kvs t h, jsonLoads line = some (.pydict kvs) ∧
    kvs.getLast (pstr "type") = some (.pystr t) ∧ lookupHandler tbl t = some h ∧
    kvs.getLast (pstr "data") = none) ∨
  (∃ kvs t h d e, jsonLoads line = some (.pydict kvs) ∧
    kvs.getLast (pstr "type") = some (.pystr t) ∧ lookupHandler tbl t = some h ∧
    kvs.getLast (pstr "data") = some d ∧ h peer d = some e ∧ e ≠ .jsonDecodeErr)

/-- A fatal line makes an exception escape the inner `try`. -/
theorem fatalLine_err (tbl : List (PyStr × Handler)) (peer : PyStr) (line : List Nat)
    (hf : fatalLine tbl peer line) :
    ∃ e, (processLine tbl peer line).2 = some e := by
  rcases hf with ⟨v, hl, hnd⟩ | ⟨kvs, t, h, hl, ht, hh, hd⟩ | ⟨kvs, t, h, d, e, hl, ht, hh, hd, hr, hne⟩
  · refine ⟨.attributeErr, ?_⟩
    cases v with
    | pydict kvs => exact absurd rfl (hnd kvs)
    | pynone => simp [processLine, hl]
    | pybool b => simp [processLine, hl]
    | pyint n => simp [processLine, hl]
    | pyfloat m e => simp [processLine, hl]
    | nan => simp [processLine, hl]
    | infinity neg => simp [processLine, hl]
    | pystr s => simp [processLine, hl]
    | pylist xs => simp [processLine, hl]
  · exact ⟨.keyErr, by simp [processLine, hl, ht, hh, hd]⟩
  · refine ⟨e, ?_⟩
    simp only [processLine, hl, ht, hh, hd, hr]

/-- Amended C10: a frame that parses as valid JSON but is not an object, or
as an object lacking `'data'` whose `'type'` has a registered handler, or
whose handler raises an exception *other than `json.JSONDecodeError`*, ends
the receive loop: nothing after that frame is dispatched (however much more
data follows), the socket is closed and the peer's registry entry is
removed.  Skip-and-continue applies only to `json.JSONDecodeError`. -/
theorem claim_c10_fatal_frame_ends_loop (sys : Sys) (sock : Nat) (peer : PyStr)
    (pre : List WireMsg) (bad tail : List Nat)
    (hpre : ∀ m ∈ pre, okMsg sys.node.message_handlers peer m)
    (hnn : 10 ∉ bad)
    (hfatal : fatalLine sys.node.message_handlers peer bad) :
    (handlePeerMessages sys sock peer [framesOf pre ++ (bad ++ 10 :: tail)]).2 =
      pre.map (dispatchOf peer) ++
        (processLine sys.node.message_handlers peer bad).1 ∧
    regLookup (handlePeerMessages sys sock peer
      [framesOf pre ++ (bad ++ 10 :: tail)]).1.node.peer_connections peer = none ∧
    sock ∉ (handlePeerMessages sys sock peer
      [framesOf pre ++ (bad ++ 10 :: tail)]).1.opens := by
  obtain ⟨e, he⟩ := fatalLine_err sys.node.message_handlers peer bad hfatal
  have hloadnil : jsonLoads ([] : List Nat) = none := rfl
  have hbadne : bad ≠ [] := by
    intro hb
    subst hb
    rcases hfatal with ⟨v, hl, -⟩ | ⟨kvs, t, h, hl, -⟩ | ⟨kvs, t, h, d, e2, hl, -⟩ <;>
      (rw [hloadnil] at hl; cases hl)
  have hsp := splitNL_no_nl bad tail hnn
  have hmid : processBuffer sys.node.message_handlers peer (bad ++ 10 :: tail) =
      ((processLine sys.node.message_handlers peer bad).1, tail, some e) := by
    rw [processBuffer_step _ _ _ _ _ hsp hbadne]
    rcases hpl : processLine sys.node.message_handlers peer bad with ⟨ds, err⟩
    rw [hpl] at he
    simp at he
    subst he
    rfl
  have hstream : processBuffer sys.node.message_handlers peer
      (framesOf pre ++ (bad ++ 10 :: tail)) =
      (pre.map (dispatchOf peer) ++ (processLine sys.node.message_handlers peer bad).1,
        tail, some e) := by
    rw [processBuffer_frames _ _ _ _ hpre, hmid]
  have hloop : recvLoop sys.node.message_handlers peer
      [framesOf pre ++ (bad ++ 10 :: tail)] [] =
      pre.map (dispatchOf peer) ++ (processLine sys.node.message_handlers peer bad).1 := by
    show (match (processBuffer sys.node.message_handlers peer
        ([] ++ (framesOf pre ++ (bad ++ 10 :: tail)))).2.2 with
      | some _ => (processBuffer sys.node.message_handlers peer
          ([] ++ (framesOf pre ++ (bad ++ 10 :: tail)))).1
      | none => (processBuffer sys.node.message_handlers peer
            ([] ++ (framesOf pre ++ (bad ++ 10 :: tail)))).1 ++
          recvLoop sys.node.message_handlers peer []
            (processBuffer sys.node.message_handlers peer
              ([] ++ (framesOf pre ++ (bad ++ 10 :: tail)))).2.1) = _
    rw [show ([] : List Nat) ++ (framesOf pre ++ (bad ++ 10 :: tail)) =
      framesOf pre ++ (bad ++ 10 :: tail) from by simp]
    rw [hstream]
  refine ⟨?_, ?_, ?_⟩
  · show recvLoop sys.node.message_handlers peer _ [] = _
    exact hloop
  · exact regLookup_erase _ peer
  · exact closeSock_not_mem sys sock

/-- Counterexample to C10 as stated: a handler that raises
`json.JSONDecodeError` is caught by the inner `except` — the loop does not
terminate, and the following frame is still dispatched.  The first conjunct
shows the handler does raise on the first message's arguments; the second
shows both frames were nevertheless dispatched. -/
theorem claim_c10_counterexample :
    ((fun _ _ => some PyErr.jsonDecodeErr : Handler) (pstr "p") (PyVal.pyint 1) =
      some PyErr.jsonDecodeErr) ∧
    recvLoop [(pstr "ping", (fun _ _ => some PyErr.jsonDecodeErr : Handler))] (pstr "p")
      [framesOf [(pstr "ping", (5 : Int), PyVal.pyint 1),
                 (pstr "ping", (6 : Int), PyVal.pyint 2)]] [] =
      [⟨pstr "ping", pstr "p", PyVal.pyint 1⟩, ⟨pstr "ping", pstr "p", PyVal.pyint 2⟩] := by
  refine ⟨rfl, ?_⟩
  rw [recvLoop_flatten _ _ _ [] (by rfl)]
  rw [show ([] : List Nat) ++
      ([framesOf [(pstr "ping", (5 : Int), PyVal.pyint 1),
        (pstr "ping", (6 : Int), PyVal.pyint 2)]] : List (List Nat)).flatten =
      framesOf [(pstr "ping", (5 : Int), PyVal.pyint 1),
        (pstr "ping", (6 : Int), PyVal.pyint 2)] ++ [] from by simp]
  rw [processBuffer_frames _ _ _ []
    (by
      intro m hm
      rcases List.mem_cons.mp hm with h | h
      · subst h
        exact ⟨by decide, by decide,
          ⟨fun _ _ => some PyErr.jsonDecodeErr, rfl, Or.inr rfl⟩⟩
      · rcases List.mem_cons.mp h with h2 | h2
        · subst h2
          exact ⟨by decide, by decide,
            ⟨fun _ _ => some PyErr.jsonDecodeErr, rfl, Or.inr rfl⟩⟩
        · simp at h2)]
  rw [processBuffer_none _ _ [] rfl]
  simp [dispatchOf]

/-- Witness for the amended C10: a valid-JSON array frame followed by more
data; the loop ends at that frame, the later bytes are never dispatched, the
socket handle is closed and the registry entry is gone. -/
theorem claim_c10_fatal_frame_ends_loop_witness :
    (handlePeerMessages ⟨⟨9999, none, [(pstr "q", 7)], [], true⟩, [7], 8⟩ 7 (pstr "q")
      [framesOf [] ++ (pstr "[1]" ++ 10 :: pstr "x")]).2 =
      List.map (dispatchOf (pstr "q")) [] ++
        (processLine (⟨⟨9999, none, [(pstr "q", 7)], [], true⟩,
          [7], 8⟩ : Sys).node.message_handlers (pstr "q") (pstr "[1]")).1 ∧
    regLookup (handlePeerMessages ⟨⟨9999, none, [(pstr "q", 7)], [], true⟩, [7], 8⟩ 7
      (pstr "q") [framesOf [] ++ (pstr "[1]" ++ 10 :: pstr "x")]).1.node.peer_connections
      (pstr "q") = none ∧
    7 ∉ (handlePeerMessages ⟨⟨9999, none, [(pstr "q", 7)], [], true⟩, [7], 8⟩ 7 (pstr "q")
      [framesOf [] ++ (pstr "[1]" ++ 10 :: pstr "x")]).1.opens :=
  claim_c10_fatal_frame_ends_loop ⟨⟨9999, none, [(pstr "q", 7)], [], true⟩, [7], 8⟩ 7
    (pstr "q") [] (pstr "[1]") (pstr "x")
    (by intro m hm; simp at hm)
    (by decide)
    (Or.inl ⟨.pylist (.cons (.pyint 1) .nil), by decide, by intro kvs; simp⟩)
